import Mathlib

/-!
Verification development for the data_alchemist repository's validation and
ingestion core (`src/lib/file-parser.ts` and `src/lib/validation.ts`).

The TypeScript code is shallowly embedded: each source function becomes an
executable Lean definition over explicit models of the JavaScript primitives
it uses (`parseInt`, `Number`, `String`, `JSON.parse`, `Array.isArray`,
`Map`, string `split`/`trim`/`toLowerCase`).  JavaScript numbers are modelled
exactly as scaled decimals (an integer mantissa with a power-of-ten
denominator); IEEE-754 rounding of extreme values is outside the scope of the
properties proved here, which only exercise small decimal quantities.
Exceptions (`throw`/`try`) are modelled with `Except`/`Option`.
-/

namespace DataAlchemist

/-! ## JavaScript string primitives -/

/-- Whitespace recognised by JS `trim` / leading-whitespace skipping
(the common ASCII whitespace characters; exotic Unicode space classes are
not exercised by this development). -/
def isWsChar (c : Char) : Bool :=
  c = ' ' || c = '\t' || c = '\n' || c = '\r' || c = '\x0b' || c = '\x0c'

/-- JS `String.prototype.trim`, on the character-list representation. -/
def jsTrim (s : String) : String :=
  ⟨((s.data.dropWhile isWsChar).reverse.dropWhile isWsChar).reverse⟩

/-- `c` lowercased as JS `toLowerCase` does for ASCII letters. -/
def jsLowerChar (c : Char) : Char :=
  if 'A' ≤ c && c ≤ 'Z' then Char.ofNat (c.toNat + 32) else c

/-- JS `String.prototype.toLowerCase` (ASCII; the source's header keywords
are all ASCII). -/
def jsLower (s : String) : String :=
  ⟨s.data.map jsLowerChar⟩

/-- JS `String.prototype.split` with a single-character separator, on
character lists.  `"".split(sep)` yields `[""]`, matching JS. -/
def splitChar (sep : Char) : List Char → List (List Char)
  | [] => [[]]
  | c :: cs =>
    if c = sep then [] :: splitChar sep cs
    else
      match splitChar sep cs with
      | g :: gs => (c :: g) :: gs
      | [] => [[c]]

/-- JS `s.split(sep)` for a one-character separator. -/
def jsSplit (sep : Char) (s : String) : List String :=
  (splitChar sep s.data).map (fun l => ⟨l⟩)

/-- JS `s.includes(c)` for a single character. -/
def jsIncludes (c : Char) (s : String) : Bool :=
  s.data.contains c

/-- Decimal digit test. -/
def isDigitChar (c : Char) : Bool :=
  '0' ≤ c && c ≤ '9'

/-- Numeric value of a decimal digit. -/
def digitVal (c : Char) : Nat :=
  c.toNat - '0'.toNat

/-- Value of a hexadecimal digit, if `c` is one (working on the code
point: 48-57 are the digits, 97-102 and 65-70 the two letter ranges). -/
def hexVal (c : Char) : Option Nat :=
  let n := c.toNat
  if 48 ≤ n && n ≤ 57 then some (n - 48)
  else if 97 ≤ n && n ≤ 102 then some (n - 87)
  else if 65 ≤ n && n ≤ 70 then some (n - 55)
  else none

/-- The natural number denoted by a list of decimal digits (most significant
first). -/
def natOfDigits (cs : List Char) : Nat :=
  cs.foldl (fun acc c => 10 * acc + digitVal c) 0

/-- The natural number denoted by a list of hexadecimal digits. -/
def natOfHexDigits (cs : List Char) : Nat :=
  cs.foldl (fun acc c => 16 * acc + (hexVal c).getD 0) 0

/-! ## JS `parseInt`

`parseInt(s)` (radix argument omitted): skip leading whitespace, read an
optional sign, auto-detect a `0x`/`0X` hexadecimal prefix, then take the
longest prefix of digits; the result is `NaN` (modelled as `none`) when no
digit is found.  Trailing junk is ignored.  The double-precision rounding of
extremely long digit strings is not modelled (all inputs exercised here are
small). -/

/-- Core of `parseInt` after whitespace and sign handling: `cs` is the rest
of the input, and the result is the magnitude parsed. -/
def parseIntDigits (cs : List Char) : Option Nat :=
  match cs with
  | '0' :: x :: rest =>
    if x = 'x' || x = 'X' then
      let hs := rest.takeWhile (fun c => (hexVal c).isSome)
      if hs = [] then none else some (natOfHexDigits hs)
    else
      some (natOfDigits ('0' :: (x :: rest).takeWhile isDigitChar))
  | _ =>
    let ds := cs.takeWhile isDigitChar
    if ds = [] then none else some (natOfDigits ds)

/-- JS `parseInt(s)` with the radix argument omitted (`NaN` is `none`).
`-0` is identified with `0`, as `Int` has a single zero. -/
def parseIntJS (s : String) : Option Int :=
  match s.data.dropWhile isWsChar with
  | '-' :: rest => (parseIntDigits rest).map (fun n => -(n : Int))
  | '+' :: rest => (parseIntDigits rest).map (fun n => (n : Int))
  | rest => (parseIntDigits rest).map (fun n => (n : Int))

/-! ## JS numbers as exact scaled decimals

A JavaScript number is modelled as `m / 10^e` with an integer mantissa.
This represents every decimal literal a JSON document or a spreadsheet cell
can contain, exactly.  `NaN` is represented externally as `Option.none`
wherever the source can produce it. -/

/-- A JS number: the rational `m / 10 ^ e`. -/
structure JsN where
  m : Int
  e : Nat
  deriving DecidableEq, Repr

/-- The number `n`. -/
def JsN.ofInt (n : Int) : JsN := ⟨n, 0⟩

instance : OfNat JsN n := ⟨JsN.ofInt n⟩

/-- The rational value of a `JsN` (used in statements, not in executable
code paths). -/
def JsN.val (a : JsN) : ℚ := (a.m : ℚ) / (10 : ℚ) ^ a.e

/-- JS `===` / `SameValueZero` on numbers (value equality of the scaled
decimals). -/
def JsN.beq (a b : JsN) : Bool :=
  a.m * (10 : Int) ^ b.e == b.m * (10 : Int) ^ a.e

/-- JS `<` on numbers. -/
def JsN.blt (a b : JsN) : Bool :=
  decide (a.m * (10 : Int) ^ b.e < b.m * (10 : Int) ^ a.e)

/-- JS `+` on numbers (exact on scaled decimals). -/
def JsN.add (a b : JsN) : JsN :=
  ⟨a.m * (10 : Int) ^ b.e + b.m * (10 : Int) ^ a.e, a.e + b.e⟩

/-- JS `-` on numbers. -/
def JsN.sub (a b : JsN) : JsN :=
  ⟨a.m * (10 : Int) ^ b.e - b.m * (10 : Int) ^ a.e, a.e + b.e⟩

/-- JS `Number.isInteger`. -/
def JsN.isInt (a : JsN) : Bool :=
  a.m % (10 : Int) ^ a.e == 0

/-- Whether the number is (exactly) zero, i.e. falsy in JS. -/
def JsN.isZero (a : JsN) : Bool :=
  a.m == 0

theorem JsN.beq_iff_val {a b : JsN} : a.beq b = true ↔ a.val = b.val := by
  unfold JsN.beq JsN.val
  rw [beq_iff_eq, div_eq_div_iff (by positivity) (by positivity)]
  constructor
  · intro h
    exact_mod_cast congrArg (fun z : ℤ => (z : ℚ)) h
  · intro h
    exact_mod_cast h

theorem JsN.blt_iff_val {a b : JsN} : a.blt b = true ↔ a.val < b.val := by
  unfold JsN.blt JsN.val
  rw [decide_eq_true_iff, div_lt_div_iff₀ (by positivity) (by positivity)]
  constructor
  · intro h
    exact_mod_cast h
  · intro h
    exact_mod_cast h

theorem JsN.val_add (a b : JsN) : (a.add b).val = a.val + b.val := by
  unfold JsN.add JsN.val
  push_cast
  rw [pow_add]
  field_simp

theorem JsN.val_ofInt (n : Int) : (JsN.ofInt n).val = (n : ℚ) := by
  simp [JsN.ofInt, JsN.val]

/-! ## `JSON.parse`

A strict JSON parser (the ECMAScript grammar: no trailing input, no leading
zeros, `\uXXXX` escapes, exact decimal numbers with optional exponent).
Containers are parsed iteratively with an explicit context stack so that the
whole parser is a single structural recursion on a fuel argument and hence
evaluates in the kernel. -/

/-- A parsed JSON value. -/
inductive JsonVal where
  | jnull
  | jbool (b : Bool)
  | jnum (n : JsN)
  | jstr (s : String)
  | jarr (elems : List JsonVal)
  | jobj (members : List (String × JsonVal))

/-- JSON whitespace (exactly the four characters of the JSON grammar). -/
def isJsonWs (c : Char) : Bool :=
  c = ' ' || c = '\t' || c = '\n' || c = '\r'

/-- Read a JSON string body (after the opening quote), returning its
characters and the rest of the input. -/
def jsonStrBody : List Char → Option (List Char × List Char)
  | [] => none
  | '"' :: rest => some ([], rest)
  | '\\' :: esc =>
    match esc with
    | 'u' :: a :: b :: c :: d :: rest =>
      match hexVal a, hexVal b, hexVal c, hexVal d with
      | some va, some vb, some vc, some vd =>
        let n := ((va * 16 + vb) * 16 + vc) * 16 + vd
        (jsonStrBody rest).map (fun p => (Char.ofNat n :: p.1, p.2))
      | _, _, _, _ => none
    | e :: rest =>
      let c? : Option Char :=
        if e = '"' then some '"'
        else if e = '\\' then some '\\'
        else if e = '/' then some '/'
        else if e = 'b' then some '\x08'
        else if e = 'f' then some '\x0c'
        else if e = 'n' then some '\n'
        else if e = 'r' then some '\r'
        else if e = 't' then some '\t'
        else none
      match c? with
      | some c => (jsonStrBody rest).map (fun p => (c :: p.1, p.2))
      | none => none
    | [] => none
  | c :: rest =>
    if c.toNat < 0x20 then none
    else (jsonStrBody rest).map (fun p => (c :: p.1, p.2))

/-- Read the integer-part digits of a JSON number (strict: a single `0`, or
a nonzero digit followed by digits). -/
def jsonIntDigits : List Char → Option (List Char × List Char)
  | '0' :: rest => some (['0'], rest)
  | c :: rest =>
    if isDigitChar c && c ≠ '0' then
      some (c :: rest.takeWhile isDigitChar, rest.dropWhile isDigitChar)
    else none
  | [] => none

/-- Read a JSON number literal, returning its exact scaled-decimal value. -/
def jsonNum (cs : List Char) : Option (JsN × List Char) :=
  let p : Bool × List Char :=
    match cs with
    | '-' :: rest => (true, rest)
    | _ => (false, cs)
  match jsonIntDigits p.2 with
  | none => none
  | some (intDs, cs2) =>
    let fres : Option (List Char × List Char) :=
      match cs2 with
      | '.' :: rest =>
        let ds := rest.takeWhile isDigitChar
        if ds = [] then none else some (ds, rest.dropWhile isDigitChar)
      | _ => some ([], cs2)
    match fres with
    | none => none
    | some (fracDs, cs3) =>
      let eres : Option (Int × List Char) :=
        match cs3 with
        | e :: rest =>
          if e = 'e' || e = 'E' then
            let q : Int × List Char :=
              match rest with
              | '-' :: r => (-1, r)
              | '+' :: r => (1, r)
              | r => (1, r)
            let ds := q.2.takeWhile isDigitChar
            if ds = [] then none
            else some (q.1 * (natOfDigits ds : Int), q.2.dropWhile isDigitChar)
          else some (0, e :: rest)
        | [] => some (0, [])
      match eres with
      | none => none
      | some (ex, cs4) =>
        let mag : Int := (natOfDigits (intDs ++ fracDs) : Int)
        let mant : Int := if p.1 then -mag else mag
        let etotal : Int := ex - (fracDs.length : Int)
        let n : JsN :=
          if 0 ≤ etotal then ⟨mant * (10 : Int) ^ etotal.toNat, 0⟩
          else ⟨mant, (-etotal).toNat⟩
        some (n, cs4)

/-- A pending container while parsing: an array with the elements completed
so far, or an object with the members completed so far and the key whose
value is being parsed. -/
inductive JsonCtx where
  | inArr (done : List JsonVal)
  | inObj (done : List (String × JsonVal)) (key : String)

/-- The JSON parsing loop.  The instruction is either `.inl cs` ("parse one
value from `cs`") or `.inr (v, cs)` ("the value `v` just completed, `cs`
remains"); `stk` holds the enclosing partial containers.  Structural
recursion on the fuel keeps the definition kernel-computable; the fuel
chosen by `jsonParse` always suffices because every step consumes input. -/
def jsonRun : Nat → List Char ⊕ (JsonVal × List Char) → List JsonCtx → Option JsonVal
  | 0, _, _ => none
  | Nat.succ f, .inl cs, stk =>
    match cs.dropWhile isJsonWs with
    | 'n' :: 'u' :: 'l' :: 'l' :: rest => jsonRun f (.inr (.jnull, rest)) stk
    | 't' :: 'r' :: 'u' :: 'e' :: rest => jsonRun f (.inr (.jbool true, rest)) stk
    | 'f' :: 'a' :: 'l' :: 's' :: 'e' :: rest => jsonRun f (.inr (.jbool false, rest)) stk
    | '"' :: rest =>
      match jsonStrBody rest with
      | some (body, rest2) => jsonRun f (.inr (.jstr ⟨body⟩, rest2)) stk
      | none => none
    | '[' :: rest =>
      match rest.dropWhile isJsonWs with
      | ']' :: rest2 => jsonRun f (.inr (.jarr [], rest2)) stk
      | _ => jsonRun f (.inl rest) (.inArr [] :: stk)
    | '{' :: rest =>
      match rest.dropWhile isJsonWs with
      | '}' :: rest2 => jsonRun f (.inr (.jobj [], rest2)) stk
      | '"' :: rest2 =>
        match jsonStrBody rest2 with
        | some (key, rest3) =>
          match rest3.dropWhile isJsonWs with
          | ':' :: rest4 => jsonRun f (.inl rest4) (.inObj [] ⟨key⟩ :: stk)
          | _ => none
        | none => none
      | _ => none
    | rest =>
      match jsonNum rest with
      | some (n, rest2) => jsonRun f (.inr (.jnum n, rest2)) stk
      | none => none
  | Nat.succ f, .inr (v, cs), stk =>
    match stk with
    | [] => if cs.dropWhile isJsonWs = [] then some v else none
    | .inArr done :: stk2 =>
      match cs.dropWhile isJsonWs with
      | ',' :: rest => jsonRun f (.inl rest) (.inArr (done ++ [v]) :: stk2)
      | ']' :: rest => jsonRun f (.inr (.jarr (done ++ [v]), rest)) stk2
      | _ => none
    | .inObj done key :: stk2 =>
      match cs.dropWhile isJsonWs with
      | ',' :: rest =>
        match rest.dropWhile isJsonWs with
        | '"' :: rest2 =>
          match jsonStrBody rest2 with
          | some (k2, rest3) =>
            match rest3.dropWhile isJsonWs with
            | ':' :: rest4 =>
              jsonRun f (.inl rest4) (.inObj (done ++ [(key, v)]) ⟨k2⟩ :: stk2)
            | _ => none
          | none => none
        | _ => none
      | '}' :: rest => jsonRun f (.inr (.jobj (done ++ [(key, v)]), rest)) stk2
      | _ => none

/-- JS `JSON.parse(s)`: `none` models a thrown `SyntaxError`. -/
def jsonParse (s : String) : Option JsonVal :=
  jsonRun (4 * s.length + 8) (.inl s.data) []

/-! ## JS `Number` and `String` coercion of parsed values -/

/-- `⟨-m, e⟩`: negation of a JS number. -/
def JsN.neg (a : JsN) : JsN := ⟨-a.m, a.e⟩

/-- An unsigned JS decimal numeric literal (`digits [. digits] [exp]`,
`. digits [exp]`; leading zeros allowed), consuming the whole input. -/
def decLiteral (cs : List Char) : Option JsN :=
  let intDs := cs.takeWhile isDigitChar
  let cs1 := cs.dropWhile isDigitChar
  let fres : Option (List Char × List Char) :=
    match cs1 with
    | '.' :: rest => some (rest.takeWhile isDigitChar, rest.dropWhile isDigitChar)
    | _ => some ([], cs1)
  match fres with
  | none => none
  | some (fracDs, cs2) =>
    if intDs = [] && fracDs = [] then none else
    let eres : Option Int :=
      match cs2 with
      | [] => some 0
      | e :: rest =>
        if e = 'e' || e = 'E' then
          let q : Int × List Char :=
            match rest with
            | '-' :: r => (-1, r)
            | '+' :: r => (1, r)
            | r => (1, r)
          if q.2 ≠ [] && q.2.all isDigitChar then
            some (q.1 * (natOfDigits q.2 : Int))
          else none
        else none
    match eres with
    | none => none
    | some ex =>
      let mant : Int := (natOfDigits (intDs ++ fracDs) : Int)
      let etotal : Int := ex - (fracDs.length : Int)
      some (if 0 ≤ etotal then ⟨mant * (10 : Int) ^ etotal.toNat, 0⟩
            else ⟨mant, (-etotal).toNat⟩)

/-- An unsigned JS numeric literal: decimal, or a `0x`/`0o`/`0b` integer
(`Infinity` is not modelled; none of the embedded code paths or proved
properties feed it in). -/
def unsignedNumLiteral (cs : List Char) : Option JsN :=
  match cs with
  | '0' :: x :: rest =>
    if x = 'x' || x = 'X' then
      if rest ≠ [] && rest.all (fun c => (hexVal c).isSome) then
        some ⟨(natOfHexDigits rest : Int), 0⟩
      else none
    else if x = 'o' || x = 'O' then
      if rest ≠ [] && rest.all (fun c => '0' ≤ c && c ≤ '7') then
        some ⟨(rest.foldl (fun acc c => 8 * acc + digitVal c) 0 : Int), 0⟩
      else none
    else if x = 'b' || x = 'B' then
      if rest ≠ [] && rest.all (fun c => c = '0' || c = '1') then
        some ⟨(rest.foldl (fun acc c => 2 * acc + digitVal c) 0 : Int), 0⟩
      else none
    else decLiteral cs
  | _ => decLiteral cs

/-- JS `Number(s)` on a string (`NaN` is `none`): trim, empty means `0`,
otherwise the whole string must be a numeric literal; a sign is only
permitted on decimal literals, as in ECMAScript. -/
def strToNum (s : String) : Option JsN :=
  match ((s.data.dropWhile isWsChar).reverse.dropWhile isWsChar).reverse with
  | [] => some ⟨0, 0⟩
  | '-' :: rest => (decLiteral rest).map JsN.neg
  | '+' :: rest => decLiteral rest
  | cs => unsignedNumLiteral cs

/-- Decimal digit character for `d < 10` (code point 48 is `0`). -/
def digitChar (d : Nat) : Char := Char.ofNat (48 + d)

/-- The decimal digits of `n`, most significant first (fueled division
loop, kernel-computable). -/
def natToChars : Nat → Nat → List Char
  | 0, _ => []
  | Nat.succ f, n => if n < 10 then [digitChar n] else natToChars f (n / 10) ++ [digitChar (n % 10)]

/-- Decimal rendering of a natural number. -/
def natStr (n : Nat) : String := ⟨natToChars (n + 1) n⟩

/-- Decimal rendering of an integer. -/
def intStr : Int → String
  | .ofNat n => natStr n
  | .negSucc n => "-" ++ natStr (n + 1)

/-- JS `String(n)` for a number: integers render without a point, other
values as exact finite decimals with trailing zeros stripped (the
exponential notation JS switches to beyond `1e21`/`1e-7` is outside the
magnitudes exercised here). -/
def jsNumToString (n : JsN) : String :=
  if n.isInt then intStr (n.m / (10 : Int) ^ n.e)
  else
    let sgn := if n.m < 0 then "-" else ""
    let mag := n.m.natAbs
    let ip := mag / 10 ^ n.e
    let fp := mag % 10 ^ n.e
    let ds := natToChars (fp + 1) fp
    let padded := List.replicate (n.e - ds.length) '0' ++ ds
    let frac := (padded.reverse.dropWhile (· = '0')).reverse
    sgn ++ natStr ip ++ "." ++ ⟨frac⟩

/-- `l.join(",")`-style concatenation used by JS array `toString`. -/
def joinComma : List String → String
  | [] => ""
  | [s] => s
  | s :: rest => s ++ "," ++ joinComma rest

/-- JS `Array.prototype.join` with an arbitrary separator. -/
def joinSep (sep : String) : List String → String
  | [] => ""
  | [s] => s
  | s :: rest => s ++ sep ++ joinSep sep rest

/-- JS `String(v)` for a parsed JSON value.  The `inArr` flag marks
rendering as an array element, where `null` renders as the empty string.
The fuel bounds array nesting; callers pass the source-text length, which
dominates the nesting depth of anything `jsonParse` returns. -/
def jsToStringF : Nat → Bool → JsonVal → String
  | _, true, .jnull => ""
  | _, false, .jnull => "null"
  | _, _, .jbool b => if b then "true" else "false"
  | _, _, .jnum n => jsNumToString n
  | _, _, .jstr s => s
  | _, _, .jobj _ => "[object Object]"
  | 0, _, .jarr _ => ""
  | Nat.succ f, _, .jarr l => joinComma (l.map (jsToStringF f true))

/-- JS `Number(v)` for a parsed JSON value (`NaN` is `none`); arrays go
through their string rendering, as in JS. -/
def jsToNumber (fuel : Nat) : JsonVal → Option JsN
  | .jnull => some ⟨0, 0⟩
  | .jbool b => some (if b then ⟨1, 0⟩ else ⟨0, 0⟩)
  | .jnum n => some n
  | .jstr s => strToNum s
  | .jobj _ => none
  | .jarr l => strToNum (jsToStringF fuel false (.jarr l))

/-! ## Entity model

The validator (`src/lib/validation.ts`) is defensive: although the declared
TypeScript types promise arrays, the data it receives can hold other runtime
shapes (the grid editor stores `JSON.parse` results of free-form cell text
into `AvailableSlots`/`PreferredPhases`, so `null`, numbers, strings,
booleans and objects are all reachable).  Fields that the source guards with
`Array.isArray` are therefore modelled as an array-or-other sum. -/

/-- A runtime value that is not an array (the shapes reachable through the
ingestion and editing paths). -/
inductive NotArrVal where
  | nstr (s : String)
  | nnum (n : JsN)
  | nbool (b : Bool)
  | nnull
  | nundef
  | nobj
  deriving DecidableEq

/-- A field the source checks with `Array.isArray`: either a proper array
of `α` or some other runtime value. -/
inductive ArrField (α : Type) where
  | arr (l : List α)
  | notArr (v : NotArrVal)
  deriving DecidableEq

/-- JS `Array.isArray`. -/
def ArrField.isArr : ArrField α → Bool
  | .arr _ => true
  | .notArr _ => false

/-- `AttributesJSON`: a raw JSON string or an already-parsed object
(`string | object` in the source). -/
inductive AttrVal where
  | strV (s : String)
  | objV
  deriving DecidableEq

/-- `PreferredPhases`: an explicit numeric list, a string (range literal or
otherwise), or some other runtime value (neither string nor array). -/
inductive PhasesField where
  | nums (l : List JsN)
  | strP (s : String)
  | otherP
  deriving DecidableEq

/-- `Client` record (`src/types`). -/
structure Client where
  ClientID : String
  ClientName : String
  PriorityLevel : JsN
  RequestedTaskIDs : ArrField String
  GroupTag : String
  AttributesJSON : AttrVal
  deriving DecidableEq

/-- `Worker` record (`src/types`). -/
structure Worker where
  WorkerID : String
  WorkerName : String
  Skills : ArrField String
  AvailableSlots : ArrField JsN
  MaxLoadPerPhase : JsN
  WorkerGroup : String
  QualificationLevel : JsN
  deriving DecidableEq

/-- `Task` record (`src/types`). -/
structure Task where
  TaskID : String
  TaskName : String
  Category : String
  Duration : JsN
  RequiredSkills : ArrField String
  PreferredPhases : PhasesField
  MaxConcurrent : JsN
  deriving DecidableEq

/-! ## `FileParser` (src/lib/file-parser.ts) -/

/-- `FileParser.getValue`: first defined key of the row wins; the value is
stringified and trimmed; absent everywhere yields `""`.  A row is modelled
as an association list whose values are already the strings the CSV/XLSX
readers deliver. -/
def getValue (row : List (String × String)) : List String → String
  | [] => ""
  | k :: rest =>
    match row.lookup k with
    | some v => jsTrim v
    | none => getValue row rest

/-- `FileParser.parseArray`: JSON-array parse first (elements stringified),
else split on commas, trim, drop empties. -/
def parseArray (value : String) : List String :=
  if value = "" then []
  else
    match jsonParse value with
    | some (.jarr l) => l.map (jsToStringF value.length false)
    | _ => ((jsSplit ',' value).map jsTrim).filter (fun item => item ≠ "")

/-- `FileParser.parseNumberArray`: JSON-array parse first (elements
`Number`-coerced, `NaN`s dropped), else split on commas and `parseInt` each
trimmed piece, dropping failures. -/
def parseNumberArray (value : String) : List JsN :=
  if value = "" then []
  else
    match jsonParse value with
    | some (.jarr l) => l.filterMap (jsToNumber value.length)
    | _ => (jsSplit ',' value).filterMap (fun item => (parseIntJS (jsTrim item)).map JsN.ofInt)

/-- The regex `^\d+-\d+$` of `FileParser.parsePhases` and
`DataValidator.isValidPhaseRange`: two nonempty digit runs joined by a
single hyphen. -/
def isRangeLit (s : String) : Bool :=
  match jsSplit '-' s with
  | [a, b] => a ≠ "" && b ≠ "" && a.data.all isDigitChar && b.data.all isDigitChar
  | _ => false

/-- `FileParser.parsePhases`: keep range literals as strings; then try a
JSON-array parse (`Number`-coercing elements); else comma-split `parseInt`,
returning the original string when that final list is empty. -/
def parsePhases (value : String) : PhasesField :=
  if value = "" then .nums []
  else if isRangeLit value then .strP value
  else
    match jsonParse value with
    | some (.jarr l) => .nums (l.filterMap (jsToNumber value.length))
    | _ =>
      let numbers :=
        (jsSplit ',' value).filterMap (fun item => (parseIntJS (jsTrim item)).map JsN.ofInt)
      if numbers ≠ [] then .nums numbers else .strP value

/-- The `parseInt(x) || 1` coercion used by `transformClient` /
`transformWorker` / `transformTask` for integer-scalar fields: `NaN` and
`0` (both falsy) become `1`. -/
def parseIntOrOne (s : String) : Int :=
  match parseIntJS s with
  | some n => if n = 0 then 1 else n
  | none => 1

/-- `FileParser.transformClient`. -/
def transformClient (row : List (String × String)) : Client where
  ClientID := getValue row ["ClientID", "client_id", "id"]
  ClientName := getValue row ["ClientName", "client_name", "name"]
  PriorityLevel := .ofInt (parseIntOrOne (getValue row ["PriorityLevel", "priority_level", "priority"]))
  RequestedTaskIDs := .arr (parseArray (getValue row ["RequestedTaskIDs", "requested_task_ids", "tasks"]))
  GroupTag := getValue row ["GroupTag", "group_tag", "group"]
  AttributesJSON := .strV (getValue row ["AttributesJSON", "attributes_json", "attributes"])

/-- `FileParser.transformWorker`. -/
def transformWorker (row : List (String × String)) : Worker where
  WorkerID := getValue row ["WorkerID", "worker_id", "id"]
  WorkerName := getValue row ["WorkerName", "worker_name", "name"]
  Skills := .arr (parseArray (getValue row ["Skills", "skills"]))
  AvailableSlots := .arr (parseNumberArray (getValue row ["AvailableSlots", "available_slots", "slots"]))
  MaxLoadPerPhase := .ofInt (parseIntOrOne (getValue row ["MaxLoadPerPhase", "max_load_per_phase", "max_load"]))
  WorkerGroup := getValue row ["WorkerGroup", "worker_group", "group"]
  QualificationLevel := .ofInt (parseIntOrOne (getValue row ["QualificationLevel", "qualification_level", "level"]))

/-- `FileParser.transformTask`. -/
def transformTask (row : List (String × String)) : Task where
  TaskID := getValue row ["TaskID", "task_id", "id"]
  TaskName := getValue row ["TaskName", "task_name", "name"]
  Category := getValue row ["Category", "category"]
  Duration := .ofInt (parseIntOrOne (getValue row ["Duration", "duration"]))
  RequiredSkills := .arr (parseArray (getValue row ["RequiredSkills", "required_skills", "skills"]))
  PreferredPhases := parsePhases (getValue row ["PreferredPhases", "preferred_phases", "phases"])
  MaxConcurrent := .ofInt (parseIntOrOne (getValue row ["MaxConcurrent", "max_concurrent", "concurrent"]))

/-- `FileParser.detectEntityType`: lowercase every header (no separator
stripping happens in the source) and test membership against the three
keyword sets, client first, then worker, then task, defaulting to
`"client"`. -/
def detectEntityType (headers : List String) : String :=
  let headerSet := headers.map jsLower
  if headerSet.contains "clientid" || headerSet.contains "client_id" ||
     headerSet.contains "prioritylevel" || headerSet.contains "requestedtaskids" then "client"
  else if headerSet.contains "workerid" || headerSet.contains "worker_id" ||
     headerSet.contains "skills" || headerSet.contains "availableslots" ||
     headerSet.contains "maxloadperphase" || headerSet.contains "workergroup" then "worker"
  else if headerSet.contains "taskid" || headerSet.contains "task_id" ||
     headerSet.contains "duration" || headerSet.contains "requiredskills" ||
     headerSet.contains "preferredphases" || headerSet.contains "maxconcurrent" then "task"
  else "client"

/-! ## `DataValidator` (src/lib/validation.ts)

The source accumulates `ValidationError` records onto `this.errors` through
`addError`, which stamps each record with a fresh opaque identifier built
from `Date.now()` and `Math.random()`.  The embedding threads the error list
explicitly and abstracts the identifier source as a function `ids : Nat →
String` giving the id handed out by the `k`-th `addError` call of the run.
The one statement the source can throw on — reading `.length` of a
non-array `AvailableSlots` value that is `null`/`undefined` — is modelled
with `Except`. -/

/-- A `ValidationError` record (the `id` field is the opaque identifier). -/
structure VIssue where
  id : String
  type : String
  message : String
  field : Option String
  rowIndex : Option Nat
  entity : String
  deriving DecidableEq

/-- A `ValidationError` with the opaque identifier erased. -/
structure VCore where
  type : String
  message : String
  field : Option String
  rowIndex : Option Nat
  entity : String
  deriving DecidableEq

/-- Forget the opaque identifier. -/
def VIssue.core (i : VIssue) : VCore :=
  ⟨i.type, i.message, i.field, i.rowIndex, i.entity⟩

/-- Validator state: how many ids have been consumed and the errors pushed
so far. -/
structure VState where
  nextId : Nat
  errors : List VIssue
  deriving DecidableEq

/-- `DataValidator.addError` (the missing-`entity` default `'client'` of
the source is applied by the callers that omit it; every call in the source
passes an entity except none, so the default never fires, but the capacity
check passes `undefined` for field and row index). -/
def addError (ids : Nat → String) (st : VState) (type message : String)
    (field : Option String) (rowIndex : Option Nat) (entity : String) : VState :=
  ⟨st.nextId + 1, st.errors ++ [⟨ids st.nextId, type, message, field, rowIndex, entity⟩]⟩

/-- One iteration of the `validateClients` loop: the checks on client `c`
at row `i`, with `seen` the `ClientID`s of earlier rows. -/
def validateClientRow (ids : Nat → String) (i : Nat) (seen : List String)
    (c : Client) (st : VState) : VState :=
  let st := if c.ClientID = "" then
      addError ids st "error" "Missing ClientID" (some "ClientID") (some i) "client" else st
  let st := if c.ClientName = "" then
      addError ids st "error" "Missing ClientName" (some "ClientName") (some i) "client" else st
  let st := if seen.contains c.ClientID then
      addError ids st "error" ("Duplicate ClientID: " ++ c.ClientID) (some "ClientID") (some i) "client" else st
  let st := if c.PriorityLevel.blt ⟨1, 0⟩ || JsN.blt ⟨5, 0⟩ c.PriorityLevel then
      addError ids st "error" "PriorityLevel must be between 1-5" (some "PriorityLevel") (some i) "client" else st
  let st := if !c.RequestedTaskIDs.isArr then
      addError ids st "error" "RequestedTaskIDs must be an array" (some "RequestedTaskIDs") (some i) "client" else st
  match c.AttributesJSON with
  | .strV s =>
    if (jsonParse s).isNone then
      addError ids st "error" "Invalid JSON in AttributesJSON" (some "AttributesJSON") (some i) "client"
    else st
  | .objV => st

/-- The `validateClients` loop from row `i` with `seen` already-seen ids. -/
def validateClientsGo (ids : Nat → String) : Nat → List String → List Client → VState → VState
  | _, _, [], st => st
  | i, seen, c :: rest, st =>
    validateClientsGo ids (i + 1) (c.ClientID :: seen) rest (validateClientRow ids i seen c st)

/-- `DataValidator.validateClients`. -/
def validateClients (ids : Nat → String) (clients : List Client) (st : VState) : VState :=
  validateClientsGo ids 0 [] clients st

/-- JS property access `v.length` on an `AvailableSlots` value: arrays and
strings have a numeric length, `null`/`undefined` throw a `TypeError`
(modelled as `Except.error ()`), and other primitives/objects give
`undefined` (modelled as `none`). -/
def ArrField.lenJS : ArrField JsN → Except Unit (Option JsN)
  | .arr l => .ok (some ⟨(l.length : Int), 0⟩)
  | .notArr (.nstr s) => .ok (some ⟨(s.length : Int), 0⟩)
  | .notArr .nnull => .error ()
  | .notArr .nundef => .error ()
  | .notArr _ => .ok none

/-- JS `<` where the left operand may be `undefined` (`undefined < b` is
`NaN < b`, i.e. `false`). -/
def jsLtOpt (a : Option JsN) (b : JsN) : Bool :=
  match a with
  | some x => x.blt b
  | none => false

/-- One iteration of the `validateWorkers` loop.  The final over-commitment
comparison dereferences `worker.AvailableSlots.length` without an array
guard, so it can throw. -/
def validateWorkerRow (ids : Nat → String) (i : Nat) (seen : List String)
    (w : Worker) (st : VState) : Except Unit VState :=
  let st := if w.WorkerID = "" then
      addError ids st "error" "Missing WorkerID" (some "WorkerID") (some i) "worker" else st
  let st := if w.WorkerName = "" then
      addError ids st "error" "Missing WorkerName" (some "WorkerName") (some i) "worker" else st
  let st := if seen.contains w.WorkerID then
      addError ids st "error" ("Duplicate WorkerID: " ++ w.WorkerID) (some "WorkerID") (some i) "worker" else st
  let st := if !w.Skills.isArr then
      addError ids st "error" "Skills must be an array" (some "Skills") (some i) "worker" else st
  let st :=
    match w.AvailableSlots with
    | .arr l =>
      if (l.filter (fun slot => !slot.isInt || slot.blt ⟨1, 0⟩)) ≠ [] then
        addError ids st "error" "AvailableSlots must contain positive integers" (some "AvailableSlots") (some i) "worker"
      else st
    | .notArr _ =>
      addError ids st "error" "AvailableSlots must be an array" (some "AvailableSlots") (some i) "worker"
  let st := if !w.MaxLoadPerPhase.isInt || w.MaxLoadPerPhase.blt ⟨1, 0⟩ then
      addError ids st "error" "MaxLoadPerPhase must be a positive integer" (some "MaxLoadPerPhase") (some i) "worker" else st
  match w.AvailableSlots.lenJS with
  | .error e => .error e
  | .ok len =>
    .ok (if jsLtOpt len w.MaxLoadPerPhase then
      addError ids st "warning" "Worker has more max load than available slots" (some "MaxLoadPerPhase") (some i) "worker"
    else st)

/-- The `validateWorkers` loop (an uncaught `TypeError` aborts it). -/
def validateWorkersGo (ids : Nat → String) : Nat → List String → List Worker → VState → Except Unit VState
  | _, _, [], st => .ok st
  | i, seen, w :: rest, st =>
    match validateWorkerRow ids i seen w st with
    | .error e => .error e
    | .ok st2 => validateWorkersGo ids (i + 1) (w.WorkerID :: seen) rest st2

/-- `DataValidator.validateWorkers`. -/
def validateWorkers (ids : Nat → String) (workers : List Worker) (st : VState) : Except Unit VState :=
  validateWorkersGo ids 0 [] workers st

/-- One iteration of the `validateTasks` loop. -/
def validateTaskRow (ids : Nat → String) (i : Nat) (seen : List String)
    (t : Task) (st : VState) : VState :=
  let st := if t.TaskID = "" then
      addError ids st "error" "Missing TaskID" (some "TaskID") (some i) "task" else st
  let st := if t.TaskName = "" then
      addError ids st "error" "Missing TaskName" (some "TaskName") (some i) "task" else st
  let st := if seen.contains t.TaskID then
      addError ids st "error" ("Duplicate TaskID: " ++ t.TaskID) (some "TaskID") (some i) "task" else st
  let st := if !t.Duration.isInt || t.Duration.blt ⟨1, 0⟩ then
      addError ids st "error" "Duration must be a positive integer" (some "Duration") (some i) "task" else st
  let st := if !t.RequiredSkills.isArr then
      addError ids st "error" "RequiredSkills must be an array" (some "RequiredSkills") (some i) "task" else st
  let st := if !t.MaxConcurrent.isInt || t.MaxConcurrent.blt ⟨1, 0⟩ then
      addError ids st "error" "MaxConcurrent must be a positive integer" (some "MaxConcurrent") (some i) "task" else st
  match t.PreferredPhases with
  | .strP s =>
    if !isRangeLit s then
      addError ids st "error" "Invalid PreferredPhases format" (some "PreferredPhases") (some i) "task"
    else st
  | .nums _ => st
  | .otherP =>
    addError ids st "error" "PreferredPhases must be an array or range string" (some "PreferredPhases") (some i) "task"

/-- The `validateTasks` loop. -/
def validateTasksGo (ids : Nat → String) : Nat → List String → List Task → VState → VState
  | _, _, [], st => st
  | i, seen, t :: rest, st =>
    validateTasksGo ids (i + 1) (t.TaskID :: seen) rest (validateTaskRow ids i seen t st)

/-- `DataValidator.validateTasks`. -/
def validateTasks (ids : Nat → String) (tasks : List Task) (st : VState) : VState :=
  validateTasksGo ids 0 [] tasks st

/-- `this.workers.flatMap(w => w.Skills)`: JS `flatMap` flattens array
results one level and keeps non-array callback results as single elements,
so a worker whose `Skills` is (bogusly) a bare string contributes that
string itself to the union; non-string non-array values can never compare
equal to a string skill and are dropped from this string-typed model. -/
def workerSkillsUnion (workers : List Worker) : List String :=
  workers.flatMap (fun w =>
    match w.Skills with
    | .arr l => l
    | .notArr (.nstr s) => [s]
    | .notArr _ => [])

/-- The client half of `validateCrossReferences`: unknown
`RequestedTaskIDs` per client, one joint error per offending client. -/
def crossClientsGo (ids : Nat → String) (taskIds : List String) :
    Nat → List Client → VState → VState
  | _, [], st => st
  | i, c :: rest, st =>
    let st :=
      match c.RequestedTaskIDs with
      | .arr l =>
        let invalidTasks := l.filter (fun taskId => !taskIds.contains taskId)
        if invalidTasks ≠ [] then
          addError ids st "error" ("Unknown task references: " ++ joinSep ", " invalidTasks)
            (some "RequestedTaskIDs") (some i) "client"
        else st
      | .notArr _ => st
    crossClientsGo ids taskIds (i + 1) rest st

/-- The task half of `validateCrossReferences`: skills no worker has, one
joint error per offending task. -/
def crossTasksGo (ids : Nat → String) (allWorkerSkills : List String) :
    Nat → List Task → VState → VState
  | _, [], st => st
  | i, t :: rest, st =>
    let st :=
      match t.RequiredSkills with
      | .arr l =>
        let unavailableSkills := l.filter (fun skill => !allWorkerSkills.contains skill)
        if unavailableSkills ≠ [] then
          addError ids st "error" ("No workers have required skills: " ++ joinSep ", " unavailableSkills)
            (some "RequiredSkills") (some i) "task"
        else st
      | .notArr _ => st
    crossTasksGo ids allWorkerSkills (i + 1) rest st

/-- `DataValidator.validateCrossReferences`. -/
def validateCrossReferences (ids : Nat → String) (clients : List Client)
    (workers : List Worker) (tasks : List Task) (st : VState) : VState :=
  let taskIds := tasks.map Task.TaskID
  let allWorkerSkills := workerSkillsUnion workers
  let st := crossClientsGo ids taskIds 0 clients st
  crossTasksGo ids allWorkerSkills 0 tasks st

/-! ### Capacity constraints

JS `Map` keyed by numbers is modelled as an association list: `set` updates
the first entry whose key is `===`-equal (keeping the original key object)
or appends, and iteration follows insertion order, as JS guarantees. -/

/-- `Map.get` (`none` = `undefined`). -/
def mGet (m : List (JsN × JsN)) (k : JsN) : Option JsN :=
  (m.find? (fun p => p.1.beq k)).map Prod.snd

/-- `Map.set`. -/
def mSet : List (JsN × JsN) → JsN → JsN → List (JsN × JsN)
  | [], k, v => [(k, v)]
  | (k', v') :: rest, k, v =>
    if k'.beq k then (k', v) :: rest else (k', v') :: mSet rest k v

/-- `x || 0` applied to a possibly-`undefined` number: `undefined` and `0`
(falsy) give the literal `0`. -/
def jsOr0 : Option JsN → JsN
  | some v => if v.isZero then ⟨0, 0⟩ else v
  | none => ⟨0, 0⟩

/-- The supply ledger of `validateCapacityConstraints`: for each worker
with an array `AvailableSlots`, every listed phase accumulates that
worker's `MaxLoadPerPhase`. -/
def phaseSlots (workers : List Worker) : List (JsN × JsN) :=
  workers.foldl (fun m w =>
    match w.AvailableSlots with
    | .arr l => l.foldl (fun m phase => mSet m phase (JsN.add (jsOr0 (mGet m phase)) w.MaxLoadPerPhase)) m
    | .notArr _ => m) []

/-- The demand ledger of `validateCapacityConstraints`: only tasks whose
`PreferredPhases` is already an explicit numeric list contribute, each
listed phase accumulating the task's `Duration`. -/
def phaseDemand (tasks : List Task) : List (JsN × JsN) :=
  tasks.foldl (fun m t =>
    match t.PreferredPhases with
    | .nums l => l.foldl (fun m phase => mSet m phase (JsN.add (jsOr0 (mGet m phase)) t.Duration)) m
    | .strP _ => m
    | .otherP => m) []

/-- The oversaturation warning text. -/
def oversatMsg (phase demand available : JsN) : String :=
  "Phase " ++ jsNumToString phase ++ " is oversaturated: " ++ jsNumToString demand ++
    " duration needed, " ++ jsNumToString available ++ " slots available"

/-- The emission loop over the demand ledger (insertion order). -/
def capacityGo (ids : Nat → String) (slots : List (JsN × JsN)) :
    List (JsN × JsN) → VState → VState
  | [], st => st
  | (phase, demand) :: rest, st =>
    let available := jsOr0 (mGet slots phase)
    let st := if available.blt demand then
        addError ids st "warning" (oversatMsg phase demand available) none none "task"
      else st
    capacityGo ids slots rest st

/-- `DataValidator.validateCapacityConstraints`. -/
def validateCapacityConstraints (ids : Nat → String) (workers : List Worker)
    (tasks : List Task) (st : VState) : VState :=
  capacityGo ids (phaseSlots workers) (phaseDemand tasks) st

/-- `DataValidator.validateAll`: reset the error list, run the five phases
in order, return the accumulated issues (an uncaught `TypeError` from
`validateWorkers` propagates out instead). -/
def validateAll (ids : Nat → String) (clients : List Client)
    (workers : List Worker) (tasks : List Task) : Except Unit (List VIssue) :=
  let st1 := validateClients ids clients ⟨0, []⟩
  match validateWorkers ids workers st1 with
  | .error e => .error e
  | .ok st2 =>
    let st3 := validateTasks ids tasks st2
    let st4 := validateCrossReferences ids clients workers tasks st3
    let st5 := validateCapacityConstraints ids workers tasks st4
    .ok st5.errors

/-- The exported `parsePhaseRange` of src/lib/validation.ts.  Arrays pass
through; a string containing `-` is split there, `Number`-coercing the
first two parts and building `Array.from({length: end - start + 1}, (_, i)
=> start + i)` — `ToLength` truncates toward zero and clamps negatives and
`NaN` to `0`.  Other strings are `JSON.parse`d under an unchecked
`number[]` cast; the model keeps the numeric elements of an array result
(non-numeric elements and non-array results, which the source would pass
through untyped, have no numeric content to return). -/
def parsePhaseRange (phases : List JsN ⊕ String) : List JsN :=
  match phases with
  | .inl l => l
  | .inr s =>
    if jsIncludes '-' s then
      match (jsSplit '-' s).map strToNum with
      | some x :: some y :: _ =>
        let lenN := JsN.add (JsN.sub y x) ⟨1, 0⟩
        let len := (lenN.m.tdiv ((10 : Int) ^ lenN.e)).toNat
        (List.range len).map (fun k => JsN.add x ⟨(k : Int), 0⟩)
      | _ => []
    else
      match jsonParse s with
      | some (.jarr l) => l.filterMap (fun v => match v with | .jnum n => some n | _ => none)
      | _ => []

/-! ## Characterization of the validator's output

Each phase appends a list of issue cores that depends only on the data, not
on the id source or the incoming state; the lemmas below make that explicit
and are the engine behind the claim theorems. -/

theorem addError_core (ids : Nat → String) (st : VState) (t m : String)
    (f : Option String) (r : Option Nat) (e : String) :
    (addError ids st t m f r e).errors.map VIssue.core
      = st.errors.map VIssue.core ++ [⟨t, m, f, r, e⟩] := by
  simp [addError, VIssue.core]

/-- Erasure of one conditional `addError` step. -/
theorem cond_add_core (ids : Nat → String) (st : VState) {P : Prop} [Decidable P]
    (t m : String) (f : Option String) (r : Option Nat) (e : String) :
    (if P then addError ids st t m f r e else st).errors.map VIssue.core
      = st.errors.map VIssue.core ++ (if P then [(⟨t, m, f, r, e⟩ : VCore)] else []) := by
  split_ifs <;> simp [addError_core]

/-- The cores emitted by one `validateClients` iteration. -/
def clientRowCore (i : Nat) (seen : List String) (c : Client) : List VCore :=
  (if c.ClientID = "" then [⟨"error", "Missing ClientID", some "ClientID", some i, "client"⟩] else []) ++
  (if c.ClientName = "" then [⟨"error", "Missing ClientName", some "ClientName", some i, "client"⟩] else []) ++
  (if seen.contains c.ClientID then
    [⟨"error", "Duplicate ClientID: " ++ c.ClientID, some "ClientID", some i, "client"⟩] else []) ++
  (if c.PriorityLevel.blt ⟨1, 0⟩ || JsN.blt ⟨5, 0⟩ c.PriorityLevel then
    [⟨"error", "PriorityLevel must be between 1-5", some "PriorityLevel", some i, "client"⟩] else []) ++
  (if !c.RequestedTaskIDs.isArr then
    [⟨"error", "RequestedTaskIDs must be an array", some "RequestedTaskIDs", some i, "client"⟩] else []) ++
  (match c.AttributesJSON with
   | .strV s =>
     if (jsonParse s).isNone then
       [⟨"error", "Invalid JSON in AttributesJSON", some "AttributesJSON", some i, "client"⟩]
     else []
   | .objV => [])

theorem validateClientRow_core (ids : Nat → String) (i : Nat) (seen : List String)
    (c : Client) (st : VState) :
    (validateClientRow ids i seen c st).errors.map VIssue.core
      = st.errors.map VIssue.core ++ clientRowCore i seen c := by
  unfold validateClientRow clientRowCore
  rcases c with ⟨cid, cname, pl, rt, gt, aj⟩
  cases aj <;>
    simp only [cond_add_core, addError_core, List.append_assoc, List.append_nil]

/-- The cores emitted by the `validateClients` loop from row `i`. -/
def clientsCoresGo (i : Nat) (seen : List String) : List Client → List VCore
  | [] => []
  | c :: rest => clientRowCore i seen c ++ clientsCoresGo (i + 1) (c.ClientID :: seen) rest

theorem validateClientsGo_core (ids : Nat → String) :
    ∀ (cs : List Client) (i : Nat) (seen : List String) (st : VState),
    (validateClientsGo ids i seen cs st).errors.map VIssue.core
      = st.errors.map VIssue.core ++ clientsCoresGo i seen cs
  | [], i, seen, st => by simp [validateClientsGo, clientsCoresGo]
  | c :: rest, i, seen, st => by
    rw [validateClientsGo, clientsCoresGo, validateClientsGo_core ids rest,
      validateClientRow_core, List.append_assoc]

/-- The cores of `validateClients`. -/
def clientsCores (cs : List Client) : List VCore := clientsCoresGo 0 [] cs

theorem validateClients_core (ids : Nat → String) (cs : List Client) (st : VState) :
    (validateClients ids cs st).errors.map VIssue.core
      = st.errors.map VIssue.core ++ clientsCores cs :=
  validateClientsGo_core ids cs 0 [] st

/-- Whether one `validateWorkers` iteration throws: exactly when the
over-commitment comparison reads `.length` of a `null`/`undefined`
`AvailableSlots`. -/
def workerRowThrows (w : Worker) : Bool :=
  match w.AvailableSlots with
  | .notArr .nnull => true
  | .notArr .nundef => true
  | _ => false

/-- The cores emitted by one non-throwing `validateWorkers` iteration. -/
def workerRowCore (i : Nat) (seen : List String) (w : Worker) : List VCore :=
  (if w.WorkerID = "" then [⟨"error", "Missing WorkerID", some "WorkerID", some i, "worker"⟩] else []) ++
  (if w.WorkerName = "" then [⟨"error", "Missing WorkerName", some "WorkerName", some i, "worker"⟩] else []) ++
  (if seen.contains w.WorkerID then
    [⟨"error", "Duplicate WorkerID: " ++ w.WorkerID, some "WorkerID", some i, "worker"⟩] else []) ++
  (if !w.Skills.isArr then
    [⟨"error", "Skills must be an array", some "Skills", some i, "worker"⟩] else []) ++
  (match w.AvailableSlots with
   | .arr l =>
     if (l.filter (fun slot => !slot.isInt || slot.blt ⟨1, 0⟩)) ≠ [] then
       [⟨"error", "AvailableSlots must contain positive integers", some "AvailableSlots", some i, "worker"⟩]
     else []
   | .notArr _ =>
     [⟨"error", "AvailableSlots must be an array", some "AvailableSlots", some i, "worker"⟩]) ++
  (if !w.MaxLoadPerPhase.isInt || w.MaxLoadPerPhase.blt ⟨1, 0⟩ then
    [⟨"error", "MaxLoadPerPhase must be a positive integer", some "MaxLoadPerPhase", some i, "worker"⟩] else []) ++
  (match w.AvailableSlots.lenJS with
   | .ok len =>
     if jsLtOpt len w.MaxLoadPerPhase then
       [⟨"warning", "Worker has more max load than available slots", some "MaxLoadPerPhase", some i, "worker"⟩]
     else []
   | .error _ => [])

theorem validateWorkerRow_throw (ids : Nat → String) (i : Nat) (seen : List String)
    (w : Worker) (st : VState) (h : workerRowThrows w = true) :
    validateWorkerRow ids i seen w st = .error () := by
  unfold validateWorkerRow
  rcases w with ⟨wid, wname, sk, slots, load, gr, ql⟩
  rcases slots with l | v
  · simp [workerRowThrows] at h
  · cases v <;> simp_all [workerRowThrows, ArrField.lenJS]

theorem validateWorkerRow_core (ids : Nat → String) (i : Nat) (seen : List String)
    (w : Worker) (st : VState) (h : workerRowThrows w = false) :
    ∃ st2, validateWorkerRow ids i seen w st = .ok st2 ∧
      st2.errors.map VIssue.core = st.errors.map VIssue.core ++ workerRowCore i seen w := by
  unfold validateWorkerRow workerRowCore
  rcases w with ⟨wid, wname, sk, slots, load, gr, ql⟩
  rcases slots with l | v
  · simp only [ArrField.lenJS]
    refine ⟨_, rfl, ?_⟩
    simp only [cond_add_core, addError_core, List.append_assoc, List.append_nil]
  · cases v with
    | nnull => simp [workerRowThrows] at h
    | nundef => simp [workerRowThrows] at h
    | nstr s =>
      simp only [ArrField.lenJS]
      refine ⟨_, rfl, ?_⟩
      simp only [cond_add_core, addError_core, List.append_assoc, List.append_nil]
    | nnum n =>
      simp only [ArrField.lenJS]
      refine ⟨_, rfl, ?_⟩
      simp only [cond_add_core, addError_core, List.append_assoc, List.append_nil]
    | nbool b =>
      simp only [ArrField.lenJS]
      refine ⟨_, rfl, ?_⟩
      simp only [cond_add_core, addError_core, List.append_assoc, List.append_nil]
    | nobj =>
      simp only [ArrField.lenJS]
      refine ⟨_, rfl, ?_⟩
      simp only [cond_add_core, addError_core, List.append_assoc, List.append_nil]

/-- The cores of the `validateWorkers` loop from row `i` (no row throwing). -/
def workersCoresGo (i : Nat) (seen : List String) : List Worker → List VCore
  | [] => []
  | w :: rest => workerRowCore i seen w ++ workersCoresGo (i + 1) (w.WorkerID :: seen) rest

theorem validateWorkersGo_err (ids : Nat → String) :
    ∀ (ws : List Worker) (i : Nat) (seen : List String) (st : VState),
    ws.any workerRowThrows = true →
    validateWorkersGo ids i seen ws st = .error ()
  | [], _, _, _, h => by simp at h
  | w :: rest, i, seen, st, h => by
    rw [validateWorkersGo]
    by_cases hw : workerRowThrows w = true
    · rw [validateWorkerRow_throw ids i seen w st hw]
    · have hw' : workerRowThrows w = false := by simpa using hw
      obtain ⟨st2, hok, _⟩ := validateWorkerRow_core ids i seen w st hw'
      rw [hok]
      simp only []
      apply validateWorkersGo_err ids rest
      simp [hw'] at h
      simpa using h

theorem validateWorkersGo_core (ids : Nat → String) :
    ∀ (ws : List Worker) (i : Nat) (seen : List String) (st : VState),
    ws.any workerRowThrows = false →
    ∃ st2, validateWorkersGo ids i seen ws st = .ok st2 ∧
      st2.errors.map VIssue.core = st.errors.map VIssue.core ++ workersCoresGo i seen ws
  | [], i, seen, st, _ => ⟨st, rfl, by simp [workersCoresGo]⟩
  | w :: rest, i, seen, st, h => by
    rw [validateWorkersGo]
    have hw : workerRowThrows w = false := by
      by_contra hc
      simp [Bool.not_eq_false] at hc
      simp [hc] at h
    have hrest : rest.any workerRowThrows = false := by
      simp [hw] at h
      simpa using h
    obtain ⟨st2, hok, hcore⟩ := validateWorkerRow_core ids i seen w st hw
    obtain ⟨st3, hok3, hcore3⟩ := validateWorkersGo_core ids rest (i + 1) (w.WorkerID :: seen) st2 hrest
    refine ⟨st3, ?_, ?_⟩
    · rw [hok]
      exact hok3
    · rw [hcore3, hcore, workersCoresGo, List.append_assoc]

/-- The cores of `validateWorkers` (when no row throws). -/
def workersCores (ws : List Worker) : List VCore := workersCoresGo 0 [] ws

/-- The cores emitted by one `validateTasks` iteration. -/
def taskRowCore (i : Nat) (seen : List String) (t : Task) : List VCore :=
  (if t.TaskID = "" then [⟨"error", "Missing TaskID", some "TaskID", some i, "task"⟩] else []) ++
  (if t.TaskName = "" then [⟨"error", "Missing TaskName", some "TaskName", some i, "task"⟩] else []) ++
  (if seen.contains t.TaskID then
    [⟨"error", "Duplicate TaskID: " ++ t.TaskID, some "TaskID", some i, "task"⟩] else []) ++
  (if !t.Duration.isInt || t.Duration.blt ⟨1, 0⟩ then
    [⟨"error", "Duration must be a positive integer", some "Duration", some i, "task"⟩] else []) ++
  (if !t.RequiredSkills.isArr then
    [⟨"error", "RequiredSkills must be an array", some "RequiredSkills", some i, "task"⟩] else []) ++
  (if !t.MaxConcurrent.isInt || t.MaxConcurrent.blt ⟨1, 0⟩ then
    [⟨"error", "MaxConcurrent must be a positive integer", some "MaxConcurrent", some i, "task"⟩] else []) ++
  (match t.PreferredPhases with
   | .strP s =>
     if !isRangeLit s then
       [⟨"error", "Invalid PreferredPhases format", some "PreferredPhases", some i, "task"⟩]
     else []
   | .nums _ => []
   | .otherP =>
     [⟨"error", "PreferredPhases must be an array or range string", some "PreferredPhases", some i, "task"⟩])

theorem validateTaskRow_core (ids : Nat → String) (i : Nat) (seen : List String)
    (t : Task) (st : VState) :
    (validateTaskRow ids i seen t st).errors.map VIssue.core
      = st.errors.map VIssue.core ++ taskRowCore i seen t := by
  unfold validateTaskRow taskRowCore
  rcases t with ⟨tid, tname, cat, dur, rs, pp, mc⟩
  cases pp <;>
    simp only [cond_add_core, addError_core, List.append_assoc, List.append_nil]

/-- The cores emitted by the `validateTasks` loop from row `i`. -/
def tasksCoresGo (i : Nat) (seen : List String) : List Task → List VCore
  | [] => []
  | t :: rest => taskRowCore i seen t ++ tasksCoresGo (i + 1) (t.TaskID :: seen) rest

theorem validateTasksGo_core (ids : Nat → String) :
    ∀ (ts : List Task) (i : Nat) (seen : List String) (st : VState),
    (validateTasksGo ids i seen ts st).errors.map VIssue.core
      = st.errors.map VIssue.core ++ tasksCoresGo i seen ts
  | [], i, seen, st => by simp [validateTasksGo, tasksCoresGo]
  | t :: rest, i, seen, st => by
    rw [validateTasksGo, tasksCoresGo, validateTasksGo_core ids rest,
      validateTaskRow_core, List.append_assoc]

/-- The cores of `validateTasks`. -/
def tasksCores (ts : List Task) : List VCore := tasksCoresGo 0 [] ts

/-- The single optional core of the client half of the cross-reference
check for client `c` at row `i`. -/
def crossClientCore (taskIds : List String) (i : Nat) (c : Client) : List VCore :=
  match c.RequestedTaskIDs with
  | .arr l =>
    let invalidTasks := l.filter (fun taskId => !taskIds.contains taskId)
    if invalidTasks ≠ [] then
      [⟨"error", "Unknown task references: " ++ joinSep ", " invalidTasks,
        some "RequestedTaskIDs", some i, "client"⟩]
    else []
  | .notArr _ => []

/-- The single optional core of the task half of the cross-reference check
for task `t` at row `i`. -/
def crossTaskCore (allWorkerSkills : List String) (i : Nat) (t : Task) : List VCore :=
  match t.RequiredSkills with
  | .arr l =>
    let unavailableSkills := l.filter (fun skill => !allWorkerSkills.contains skill)
    if unavailableSkills ≠ [] then
      [⟨"error", "No workers have required skills: " ++ joinSep ", " unavailableSkills,
        some "RequiredSkills", some i, "task"⟩]
    else []
  | .notArr _ => []

/-- Cores of the client half of `validateCrossReferences` from row `i`. -/
def crossClientsCoresGo (taskIds : List String) (i : Nat) : List Client → List VCore
  | [] => []
  | c :: rest => crossClientCore taskIds i c ++ crossClientsCoresGo taskIds (i + 1) rest

/-- Cores of the task half of `validateCrossReferences` from row `i`. -/
def crossTasksCoresGo (allWorkerSkills : List String) (i : Nat) : List Task → List VCore
  | [] => []
  | t :: rest => crossTaskCore allWorkerSkills i t ++ crossTasksCoresGo allWorkerSkills (i + 1) rest

theorem crossClientsGo_core (ids : Nat → String) (taskIds : List String) :
    ∀ (cs : List Client) (i : Nat) (st : VState),
    (crossClientsGo ids taskIds i cs st).errors.map VIssue.core
      = st.errors.map VIssue.core ++ crossClientsCoresGo taskIds i cs
  | [], i, st => by simp [crossClientsGo, crossClientsCoresGo]
  | c :: rest, i, st => by
    rw [crossClientsGo, crossClientsCoresGo, crossClientsGo_core ids taskIds rest]
    rcases c with ⟨cid, cname, pl, rt, gt, aj⟩
    cases rt <;>
      simp only [crossClientCore, cond_add_core, addError_core, List.append_assoc,
        List.append_nil, List.nil_append]

theorem crossTasksGo_core (ids : Nat → String) (allWorkerSkills : List String) :
    ∀ (ts : List Task) (i : Nat) (st : VState),
    (crossTasksGo ids allWorkerSkills i ts st).errors.map VIssue.core
      = st.errors.map VIssue.core ++ crossTasksCoresGo allWorkerSkills i ts
  | [], i, st => by simp [crossTasksGo, crossTasksCoresGo]
  | t :: rest, i, st => by
    rw [crossTasksGo, crossTasksCoresGo, crossTasksGo_core ids allWorkerSkills rest]
    rcases t with ⟨tid, tname, cat, dur, rs, pp, mc⟩
    cases rs <;>
      simp only [crossTaskCore, cond_add_core, addError_core, List.append_assoc,
        List.append_nil, List.nil_append]

/-- The cores of `validateCrossReferences`. -/
def crossCores (cs : List Client) (ws : List Worker) (ts : List Task) : List VCore :=
  crossClientsCoresGo (ts.map Task.TaskID) 0 cs ++ crossTasksCoresGo (workerSkillsUnion ws) 0 ts

theorem validateCrossReferences_core (ids : Nat → String) (cs : List Client)
    (ws : List Worker) (ts : List Task) (st : VState) :
    (validateCrossReferences ids cs ws ts st).errors.map VIssue.core
      = st.errors.map VIssue.core ++ crossCores cs ws ts := by
  unfold validateCrossReferences crossCores
  rw [crossTasksGo_core, crossClientsGo_core, List.append_assoc]

/-- The cores of the demand-ledger emission loop. -/
def capacityCoresGo (slots : List (JsN × JsN)) : List (JsN × JsN) → List VCore
  | [] => []
  | (phase, demand) :: rest =>
    (if (jsOr0 (mGet slots phase)).blt demand then
      [⟨"warning", oversatMsg phase demand (jsOr0 (mGet slots phase)), none, none, "task"⟩]
    else []) ++ capacityCoresGo slots rest

theorem capacityGo_core (ids : Nat → String) (slots : List (JsN × JsN)) :
    ∀ (dl : List (JsN × JsN)) (st : VState),
    (capacityGo ids slots dl st).errors.map VIssue.core
      = st.errors.map VIssue.core ++ capacityCoresGo slots dl
  | [], st => by simp [capacityGo, capacityCoresGo]
  | (phase, demand) :: rest, st => by
    rw [capacityGo, capacityCoresGo, capacityGo_core ids slots rest]
    simp only [cond_add_core, List.append_assoc]

/-- The cores of `validateCapacityConstraints`. -/
def capacityCores (ws : List Worker) (ts : List Task) : List VCore :=
  capacityCoresGo (phaseSlots ws) (phaseDemand ts)

theorem validateCapacityConstraints_core (ids : Nat → String) (ws : List Worker)
    (ts : List Task) (st : VState) :
    (validateCapacityConstraints ids ws ts st).errors.map VIssue.core
      = st.errors.map VIssue.core ++ capacityCores ws ts :=
  capacityGo_core ids (phaseSlots ws) (phaseDemand ts) st

/-- The full id-erased outcome of `validateAll`: an error exactly when some
worker row throws, otherwise the concatenated cores of the five phases in
execution order.  This depends only on the three entity collections. -/
def validateAllCoresE (cs : List Client) (ws : List Worker) (ts : List Task) :
    Except Unit (List VCore) :=
  if ws.any workerRowThrows then .error ()
  else .ok (clientsCores cs ++ workersCores ws ++ tasksCores ts ++ crossCores cs ws ts ++ capacityCores ws ts)

/-- Id-erasure of a `validateAll` outcome. -/
def eraseIds (r : Except Unit (List VIssue)) : Except Unit (List VCore) :=
  r.map (List.map VIssue.core)

theorem validateTasks_core (ids : Nat → String) (ts : List Task) (st : VState) :
    (validateTasks ids ts st).errors.map VIssue.core
      = st.errors.map VIssue.core ++ tasksCores ts :=
  validateTasksGo_core ids ts 0 [] st

theorem validateAll_core (ids : Nat → String) (cs : List Client)
    (ws : List Worker) (ts : List Task) :
    eraseIds (validateAll ids cs ws ts) = validateAllCoresE cs ws ts := by
  unfold validateAll validateAllCoresE validateWorkers
  by_cases hthrow : ws.any workerRowThrows = true
  · have herr := validateWorkersGo_err ids ws 0 [] (validateClients ids cs ⟨0, []⟩) hthrow
    simp [herr, hthrow, eraseIds, Except.map]
  · have hthrow' : ws.any workerRowThrows = false := by simpa using hthrow
    obtain ⟨st2, hok, hcore⟩ := validateWorkersGo_core ids ws 0 []
      (validateClients ids cs ⟨0, []⟩) hthrow'
    simp only [hok, hthrow', eraseIds, Except.map, Bool.false_eq_true, if_false,
      Except.ok.injEq]
    rw [validateCapacityConstraints_core, validateCrossReferences_core,
      validateTasks_core, hcore, validateClients_core]
    simp [workersCores, tasksCores, List.append_assoc]

/-! ## Claim theorems -/

/-- C8: for every fixed triple of entity collections, running the full
validation twice yields outcomes that agree element-by-element in severity,
message, field, row index and entity tag, differing at most in the opaque
issue identifiers: the id-erased outcome is the same function of the data
regardless of the identifier source. -/
theorem C8_validateAll_deterministic (ids1 ids2 : Nat → String)
    (cs : List Client) (ws : List Worker) (ts : List Task) :
    eraseIds (validateAll ids1 cs ws ts) = eraseIds (validateAll ids2 cs ws ts) := by
  rw [validateAll_core, validateAll_core]

/-- C1 counterexample: the raw cell `"0"` parses to the integer `0`, yet
the `parseInt(...) || 1` coercion of the integer-scalar fields yields `1`,
not `0` (shown both on the bare coercion and through
`transformClient`/`transformTask`). -/
theorem C1_counterexample :
    parseIntJS "0" = some 0 ∧
    parseIntOrOne "0" = 1 ∧
    (transformClient [("PriorityLevel", "0")]).PriorityLevel = JsN.ofInt 1 ∧
    (transformTask [("Duration", "0")]).Duration = JsN.ofInt 1 ∧
    JsN.ofInt 1 ≠ JsN.ofInt 0 := by
  refine ⟨rfl, rfl, rfl, rfl, by decide⟩

/-- C1 (amended): integer-scalar coercion returns the integer `parseInt`
produces whenever that integer is nonzero, and returns `1` both when the
string does not parse and when it parses to `0` (the `|| 1` fallback
treats the falsy `0` like a failure); `transformClient`/`transformWorker`/
`transformTask` apply exactly this coercion to the integer-scalar fields. -/
theorem C1_int_scalar_coercion (s : String) (row : List (String × String)) :
    (∀ n : Int, parseIntJS s = some n → n ≠ 0 → parseIntOrOne s = n) ∧
    (parseIntJS s = none ∨ parseIntJS s = some 0 → parseIntOrOne s = 1) ∧
    (transformClient row).PriorityLevel
      = JsN.ofInt (parseIntOrOne (getValue row ["PriorityLevel", "priority_level", "priority"])) ∧
    (transformWorker row).MaxLoadPerPhase
      = JsN.ofInt (parseIntOrOne (getValue row ["MaxLoadPerPhase", "max_load_per_phase", "max_load"])) ∧
    (transformWorker row).QualificationLevel
      = JsN.ofInt (parseIntOrOne (getValue row ["QualificationLevel", "qualification_level", "level"])) ∧
    (transformTask row).Duration
      = JsN.ofInt (parseIntOrOne (getValue row ["Duration", "duration"])) ∧
    (transformTask row).MaxConcurrent
      = JsN.ofInt (parseIntOrOne (getValue row ["MaxConcurrent", "max_concurrent", "concurrent"])) := by
  refine ⟨?_, ?_, rfl, rfl, rfl, rfl, rfl⟩
  · intro n hn hnz
    unfold parseIntOrOne
    rw [hn]
    simp [hnz]
  · intro h
    unfold parseIntOrOne
    rcases h with h | h <;> simp [h]

/-- C1 witness: the amended coercion at concrete inputs. -/
theorem C1_coercion_witness : parseIntOrOne "7" = 7 ∧ parseIntOrOne "abc" = 1 :=
  ⟨(C1_int_scalar_coercion "7" []).1 7 rfl (by decide),
   (C1_int_scalar_coercion "abc" []).2.1 (Or.inl rfl)⟩

/-- C2 counterexample: `"[]"` JSON-parses to an (empty) array, so
`parsePhases` returns the empty numeric list, not the original raw string,
even though the final numeric list of the resolution is empty. -/
theorem C2_counterexample :
    parsePhases "[]" = PhasesField.nums [] ∧
    parsePhases "[]" ≠ PhasesField.strP "[]" := by
  exact ⟨rfl, by decide⟩

/-- C2 (amended): a raw `PreferredPhases` string matching `^\d+-\d+$` is
preserved unexpanded as a range-literal string; otherwise a JSON-array
parse is attempted and, when it succeeds, its (possibly empty) filtered
numeric list is returned; only on the comma-split fallback does an empty
final numeric list make the original raw string come back unchanged, and
the empty raw string yields the empty numeric list. -/
theorem C2_parsePhases_resolution (s : String) :
    (parsePhases "" = .nums []) ∧
    (s ≠ "" → isRangeLit s = true → parsePhases s = .strP s) ∧
    (∀ l, s ≠ "" → isRangeLit s = false → jsonParse s = some (.jarr l) →
      parsePhases s = .nums (l.filterMap (jsToNumber s.length))) ∧
    (s ≠ "" → isRangeLit s = false → (∀ l, jsonParse s ≠ some (.jarr l)) →
      parsePhases s =
        (if ((jsSplit ',' s).filterMap (fun item => (parseIntJS (jsTrim item)).map JsN.ofInt)) ≠ [] then
          .nums ((jsSplit ',' s).filterMap (fun item => (parseIntJS (jsTrim item)).map JsN.ofInt))
        else .strP s)) := by
  refine ⟨rfl, ?_, ?_, ?_⟩
  · intro hne hr
    unfold parsePhases
    simp [hne, hr]
  · intro l hne hr hj
    unfold parsePhases
    simp [hne, hr, hj]
  · intro hne hr hj
    unfold parsePhases
    cases hjp : jsonParse s with
    | none => simp [hne, hr, hjp]
    | some v =>
      cases v with
      | jarr l => exact absurd hjp (hj l)
      | jnull => simp [hne, hr, hjp]
      | jbool b => simp [hne, hr, hjp]
      | jnum n => simp [hne, hr, hjp]
      | jstr s2 => simp [hne, hr, hjp]
      | jobj ms => simp [hne, hr, hjp]

/-- C2 witness: the range literal `"2-5"` is preserved unexpanded. -/
theorem C2_range_witness : parsePhases "2-5" = PhasesField.strP "2-5" :=
  (C2_parsePhases_resolution "2-5").2.1 (by decide) rfl

/-- C3 counterexample: headers are only lowercased, never stripped of
separators, so `"Available_Slots"` and `"max load per phase"` match no
keyword set and fall to the default `"client"` instead of being recognized
as worker markers. -/
theorem C3_counterexample :
    detectEntityType ["Available_Slots"] = "client" ∧
    detectEntityType ["max load per phase"] = "client" ∧
    ("client" : String) ≠ "worker" := by
  exact ⟨rfl, rfl, by decide⟩

/-- Client markers of `detectEntityType`, on lowercased headers. -/
def clientMark (low : List String) : Bool :=
  low.contains "clientid" || low.contains "client_id" ||
    low.contains "prioritylevel" || low.contains "requestedtaskids"

/-- Worker markers of `detectEntityType`, on lowercased headers. -/
def workerMark (low : List String) : Bool :=
  low.contains "workerid" || low.contains "worker_id" ||
    low.contains "skills" || low.contains "availableslots" ||
    low.contains "maxloadperphase" || low.contains "workergroup"

/-- Task markers of `detectEntityType`, on lowercased headers. -/
def taskMark (low : List String) : Bool :=
  low.contains "taskid" || low.contains "task_id" ||
    low.contains "duration" || low.contains "requiredskills" ||
    low.contains "preferredphases" || low.contains "maxconcurrent"

/-- C3 (amended): `detectEntityType` lowercases each header (performing no
separator stripping) and tests membership against the three literal keyword
sets in the fixed order client, then worker, then task, the first matching
set winning and `"client"` the default when none matches; consequently
`"AvailableSlots"` is a worker marker but `"Available_Slots"` is not. -/
theorem C3_detectEntityType_resolution (hs : List String) :
    detectEntityType hs =
      (if clientMark (hs.map jsLower) then "client"
       else if workerMark (hs.map jsLower) then "worker"
       else if taskMark (hs.map jsLower) then "task"
       else "client") ∧
    detectEntityType ["AvailableSlots"] = "worker" ∧
    detectEntityType ["max load per phase"] = "client" ∧
    detectEntityType ["MaxLoadPerPhase"] = "worker" := by
  exact ⟨rfl, rfl, rfl, rfl⟩

/-- C7: the claim fails on the code at `AvailableSlots = null` (reachable
by editing the grid cell to the text `null`, which is stored via
`JSON.parse`): the over-commitment comparison reads `.length` of `null`
and throws a `TypeError` before any issue list is returned.  For a
non-nullish non-array value (here a bare string) the claim's behaviour does
hold: the "must be an array" error is emitted, the remaining checks
(including the `MaxLoadPerPhase` check and the over-commitment comparison
against the string's `.length`) still run, and an issue list is returned. -/
theorem C7_nonarray_slots :
    validateAll (fun _ => "") []
      [⟨"W1", "Name", .arr ["s"], .notArr .nnull, ⟨2, 0⟩, "G", ⟨1, 0⟩⟩] [] = .error () ∧
    validateAll (fun _ => "") []
      [⟨"W1", "Name", .arr ["s"], .notArr (.nstr "abc"), ⟨5, 0⟩, "G", ⟨1, 0⟩⟩] [] =
      .ok [⟨"", "error", "AvailableSlots must be an array", some "AvailableSlots", some 0, "worker"⟩,
           ⟨"", "warning", "Worker has more max load than available slots", some "MaxLoadPerPhase", some 0, "worker"⟩] := by
  exact ⟨rfl, rfl⟩

/-- C9: each field-coercion function is a total function of the raw cell
string — a failed `JSON.parse` (modelled as `none`) degrades to the
comma-split fallback, a successful array parse degrades non-conforming
elements (stringified resp. `NaN`-filtered), the empty cell yields the
empty/default value, and an entirely unparseable `PreferredPhases` cell
surfaces the original string rather than failing the row. -/
theorem C9_coercion_total_degrade :
    (∀ s, jsonParse s = none →
      parseArray s = ((jsSplit ',' s).map jsTrim).filter (fun item => item ≠ "")) ∧
    (∀ s, jsonParse s = none →
      parseNumberArray s = (jsSplit ',' s).filterMap (fun item => (parseIntJS (jsTrim item)).map JsN.ofInt)) ∧
    (∀ s l, s ≠ "" → jsonParse s = some (.jarr l) →
      parseArray s = l.map (jsToStringF s.length false) ∧
      parseNumberArray s = l.filterMap (jsToNumber s.length)) ∧
    (∀ s, s ≠ "" → isRangeLit s = false → jsonParse s = none →
      (jsSplit ',' s).filterMap (fun item => (parseIntJS (jsTrim item)).map JsN.ofInt) = [] →
      parsePhases s = .strP s) ∧
    parseArray "" = [] ∧ parseNumberArray "" = [] ∧ parsePhases "" = .nums [] := by
  refine ⟨?_, ?_, ?_, ?_, rfl, rfl, rfl⟩
  · intro s h
    by_cases hs : s = ""
    · subst hs; rfl
    · simp [parseArray, hs, h]
  · intro s h
    by_cases hs : s = ""
    · subst hs; rfl
    · simp [parseNumberArray, hs, h]
  · intro s l hne hj
    constructor
    · simp [parseArray, hne, hj]
    · simp [parseNumberArray, hne, hj]
  · intro s hne hr hj hempty
    unfold parsePhases
    simp [hne, hr, hj, hempty]

/-- C9 witness: concrete malformed inputs degrade without failing. -/
theorem C9_degrade_witness :
    parseArray "a, b" = ["a", "b"] ∧ parseNumberArray "x,y" = [] ∧ parsePhases "\x7bbad" = .strP "\x7bbad" := by
  refine ⟨?_, ?_, ?_⟩
  · rw [C9_coercion_total_degrade.1 "a, b" rfl]; rfl
  · rw [C9_coercion_total_degrade.2.1 "x,y" rfl]; rfl
  · exact C9_coercion_total_degrade.2.2.2.1 "\x7bbad" (by decide) rfl rfl rfl

/-- C10: `parsePhaseRange` returns array inputs unchanged; on a string
that splits at `-` into two pieces `Number`-valued `a` and `b`, it returns
the inclusive ascending list `[a, a+1, …, b]` when `a ≤ b` and the empty
list when `a > b` (the `Array.from` length `b - a + 1` clamps to zero),
without raising or producing a descending list. -/
theorem C10_parsePhaseRange_spec (l : List JsN) (s sa sb : String) (a b : Nat)
    (hsplit : jsSplit '-' s = [sa, sb])
    (ha : strToNum sa = some (JsN.ofInt a))
    (hb : strToNum sb = some (JsN.ofInt b))
    (hinc : jsIncludes '-' s = true) :
    parsePhaseRange (.inl l) = l ∧
    parsePhaseRange (.inr s) =
      (if a ≤ b then (List.range (b - a + 1)).map (fun k => JsN.ofInt (a + k)) else []) := by
  refine ⟨rfl, ?_⟩
  unfold parsePhaseRange
  simp only [hinc, if_true, hsplit, List.map, ha, hb]
  simp only [JsN.ofInt, JsN.add, JsN.sub, pow_zero, mul_one, one_mul, Nat.add_zero,
    Nat.zero_add, Int.tdiv_one]
  split_ifs with hab
  · have hlen : (((b : Int) - (a : Int) + 1)).toNat = b - a + 1 := by omega
    rw [hlen]
  · have hlen : (((b : Int) - (a : Int) + 1)).toNat = 0 := by omega
    rw [hlen]
    simp

/-- C10 witness: concrete ranges, ascending and inverted. -/
theorem C10_range_witness :
    parsePhaseRange (.inr "2-5") = [⟨2, 0⟩, ⟨3, 0⟩, ⟨4, 0⟩, ⟨5, 0⟩] ∧
    parsePhaseRange (.inr "5-2") = [] := by
  constructor
  · rw [(C10_parsePhaseRange_spec [] "2-5" "2" "5" 2 5 rfl rfl rfl rfl).2]; decide
  · rw [(C10_parsePhaseRange_spec [] "5-2" "5" "2" 5 2 rfl rfl rfl rfl).2]; decide

/-- The optional joint cross-reference issue of a client row. -/
def crossClientIssue (taskIds : List String) (p : Nat × Client) : Option VCore :=
  match p.2.RequestedTaskIDs with
  | .arr l =>
    let invalidTasks := l.filter (fun taskId => !taskIds.contains taskId)
    if invalidTasks ≠ [] then
      some ⟨"error", "Unknown task references: " ++ joinSep ", " invalidTasks,
        some "RequestedTaskIDs", some p.1, "client"⟩
    else none
  | .notArr _ => none

/-- The optional joint cross-reference issue of a task row. -/
def crossTaskIssue (allWorkerSkills : List String) (p : Nat × Task) : Option VCore :=
  match p.2.RequiredSkills with
  | .arr l =>
    let unavailableSkills := l.filter (fun skill => !allWorkerSkills.contains skill)
    if unavailableSkills ≠ [] then
      some ⟨"error", "No workers have required skills: " ++ joinSep ", " unavailableSkills,
        some "RequiredSkills", some p.1, "task"⟩
    else none
  | .notArr _ => none

theorem crossClientsCoresGo_filterMap (taskIds : List String) :
    ∀ (cs : List Client) (i : Nat),
    crossClientsCoresGo taskIds i cs = (cs.enumFrom i).filterMap (crossClientIssue taskIds)
  | [], i => rfl
  | c :: rest, i => by
    rw [crossClientsCoresGo, crossClientsCoresGo_filterMap taskIds rest (i + 1)]
    simp only [List.enumFrom, List.filterMap_cons]
    rcases hrt : c.RequestedTaskIDs with l | nv <;>
      (simp [crossClientCore, crossClientIssue, hrt]; try (split_ifs <;> simp))

theorem crossTasksCoresGo_filterMap (allWorkerSkills : List String) :
    ∀ (ts : List Task) (i : Nat),
    crossTasksCoresGo allWorkerSkills i ts
      = (ts.enumFrom i).filterMap (crossTaskIssue allWorkerSkills)
  | [], i => rfl
  | t :: rest, i => by
    rw [crossTasksCoresGo, crossTasksCoresGo_filterMap allWorkerSkills rest (i + 1)]
    simp only [List.enumFrom, List.filterMap_cons]
    rcases hrs : t.RequiredSkills with l | nv <;>
      (simp [crossTaskCore, crossTaskIssue, hrs]; try (split_ifs <;> simp))

/-- C6: the cross-reference check contributes exactly one joint error per
offending row — for each client whose list-shaped `RequestedTaskIDs` has
unknown ids, a single error on field `RequestedTaskIDs` listing all the
unknown ids together, and for each task whose `RequiredSkills` has skills
possessed by no worker, a single error on field `RequiredSkills` listing
all the unmet skills together — never one issue per individual violation. -/
theorem C6_cross_reference_joint (ids : Nat → String) (cs : List Client)
    (ws : List Worker) (ts : List Task) (st : VState) :
    (validateCrossReferences ids cs ws ts st).errors.map VIssue.core
      = st.errors.map VIssue.core
        ++ cs.enum.filterMap (crossClientIssue (ts.map Task.TaskID))
        ++ ts.enum.filterMap (crossTaskIssue (workerSkillsUnion ws)) := by
  rw [validateCrossReferences_core]
  unfold crossCores
  rw [crossClientsCoresGo_filterMap, crossTasksCoresGo_filterMap]
  simp [List.enum, List.append_assoc]

/-! ### Value semantics of the capacity ledgers -/

theorem JsN.beq_symm {a b : JsN} (h : a.beq b = true) : b.beq a = true :=
  JsN.beq_iff_val.mpr (JsN.beq_iff_val.mp h).symm

theorem JsN.beq_trans {a b c : JsN} (h1 : a.beq b = true) (h2 : b.beq c = true) :
    a.beq c = true :=
  JsN.beq_iff_val.mpr ((JsN.beq_iff_val.mp h1).trans (JsN.beq_iff_val.mp h2))

theorem mGet_congr {k p : JsN} (h : k.beq p = true) :
    ∀ m : List (JsN × JsN), mGet m k = mGet m p
  | [] => rfl
  | (k', v') :: rest => by
    have hiff : k'.beq k = k'.beq p := by
      by_cases h1 : k'.beq k = true
      · rw [h1, JsN.beq_trans h1 h]
      · have h2 : ¬ k'.beq p = true := fun hp => h1 (JsN.beq_trans hp (JsN.beq_symm h))
        rw [Bool.not_eq_true] at h1 h2
        rw [h1, h2]
    simp only [mGet, List.find?]
    rw [hiff]
    cases hkp : k'.beq p with
    | true => rfl
    | false =>
      have := mGet_congr h rest
      simp only [mGet] at this
      rw [this]

/-- The rational value stored in a ledger at (value-)key `p`, with absent
keys reading as `0`. -/
def valAt (m : List (JsN × JsN)) (p : JsN) : ℚ := (jsOr0 (mGet m p)).val

theorem valAt_nil (p : JsN) : valAt [] p = 0 := by
  unfold valAt
  have h0 : mGet ([] : List (JsN × JsN)) p = none := rfl
  rw [h0]
  simp [jsOr0, JsN.val]

theorem jsOr0_val (o : Option JsN) :
    (jsOr0 o).val = (match o with | some v => v.val | none => 0) := by
  cases o with
  | none => simp [jsOr0, JsN.val]
  | some v =>
    simp only [jsOr0]
    split_ifs with h
    · simp only [JsN.isZero, beq_iff_eq] at h
      simp [JsN.val, h]
    · rfl

theorem valAt_mSet (k v p : JsN) :
    ∀ m : List (JsN × JsN), valAt (mSet m k v) p
      = if k.beq p then v.val else valAt m p
  | [] => by
    by_cases h : k.beq p = true <;>
      simp [valAt, mSet, mGet, List.find?, h, jsOr0_val]
  | (k', v') :: rest => by
    simp only [mSet]
    by_cases hk : k'.beq k = true
    · rw [if_pos hk]
      have hiff : k'.beq p = k.beq p := by
        by_cases h1 : k'.beq p = true
        · rw [h1, JsN.beq_trans (JsN.beq_symm hk) h1]
        · have h2 : ¬ k.beq p = true := fun hp => h1 (JsN.beq_trans hk hp)
          rw [Bool.not_eq_true] at h1 h2
          rw [h1, h2]
      by_cases hkp : k.beq p = true
      · simp [valAt, mGet, List.find?, hiff, hkp, jsOr0_val]
      · rw [Bool.not_eq_true] at hkp
        simp [valAt, mGet, List.find?, hiff, hkp, jsOr0_val]
    · rw [if_neg hk]
      by_cases hk'p : k'.beq p = true
      · have hkp : ¬ k.beq p = true := fun hp =>
          hk (JsN.beq_trans hk'p (JsN.beq_symm hp))
        rw [Bool.not_eq_true] at hkp
        simp [valAt, mGet, List.find?, hk'p, hkp, jsOr0_val]
      · rw [Bool.not_eq_true] at hk'p
        have step := valAt_mSet k v p rest
        by_cases hkp : k.beq p = true <;>
          simp_all [valAt, mGet, List.find?, hk'p, jsOr0_val]

theorem valAt_slotFold (load : JsN) :
    ∀ (l : List JsN) (m : List (JsN × JsN)) (p : JsN),
    valAt (l.foldl (fun m phase => mSet m phase (JsN.add (jsOr0 (mGet m phase)) load)) m) p
      = valAt m p + (l.countP (fun q => q.beq p) : ℚ) * load.val
  | [], m, p => by simp
  | q :: rest, m, p => by
    rw [List.foldl_cons, valAt_slotFold load rest, valAt_mSet, List.countP_cons]
    by_cases hq : q.beq p = true
    · have hval : (jsOr0 (mGet m q)).val = valAt m p := by
        unfold valAt
        rw [mGet_congr hq m]
      rw [if_pos hq, JsN.val_add, hval]
      simp [hq]
      ring
    · rw [if_neg hq]
      simp [hq]

/-- The `AvailableSlots` phases a worker contributes to the supply ledger
(non-arrays contribute nothing). -/
def slotsOf (w : Worker) : List JsN :=
  match w.AvailableSlots with
  | .arr l => l
  | .notArr _ => []

/-- The `PreferredPhases` phases a task contributes to the demand ledger
(only explicit numeric lists contribute). -/
def prefsOf (t : Task) : List JsN :=
  match t.PreferredPhases with
  | .nums l => l
  | .strP _ => []
  | .otherP => []

theorem phaseSlotsAux (p : JsN) :
    ∀ (ws : List Worker) (m : List (JsN × JsN)),
    valAt (ws.foldl (fun m w =>
      match w.AvailableSlots with
      | .arr l => l.foldl (fun m phase => mSet m phase (JsN.add (jsOr0 (mGet m phase)) w.MaxLoadPerPhase)) m
      | .notArr _ => m) m) p
    = valAt m p
      + (ws.map (fun w => ((slotsOf w).countP (fun q => q.beq p) : ℚ) * w.MaxLoadPerPhase.val)).sum
  | [], m => by simp
  | w :: rest, m => by
    rw [List.foldl_cons, phaseSlotsAux p rest, List.map_cons, List.sum_cons]
    rcases hs : w.AvailableSlots with l | nv
    · rw [valAt_slotFold]
      simp only [slotsOf, hs]
      ring
    · simp only [slotsOf, hs, List.countP_nil]
      push_cast
      ring

theorem phaseDemandAux (p : JsN) :
    ∀ (ts : List Task) (m : List (JsN × JsN)),
    valAt (ts.foldl (fun m t =>
      match t.PreferredPhases with
      | .nums l => l.foldl (fun m phase => mSet m phase (JsN.add (jsOr0 (mGet m phase)) t.Duration)) m
      | .strP _ => m
      | .otherP => m) m) p
    = valAt m p
      + (ts.map (fun t => ((prefsOf t).countP (fun q => q.beq p) : ℚ) * t.Duration.val)).sum
  | [], m => by simp
  | t :: rest, m => by
    rw [List.foldl_cons, phaseDemandAux p rest, List.map_cons, List.sum_cons]
    rcases hs : t.PreferredPhases with l | s | _
    · rw [valAt_slotFold]
      simp only [prefsOf, hs]
      ring
    · simp only [prefsOf, hs, List.countP_nil]
      push_cast
      ring
    · simp only [prefsOf, hs, List.countP_nil]
      push_cast
      ring

theorem capacityCoresGo_filterMap (slots : List (JsN × JsN)) :
    ∀ dl : List (JsN × JsN),
    capacityCoresGo slots dl
      = dl.filterMap (fun pd =>
          if (jsOr0 (mGet slots pd.1)).val < pd.2.val then
            some ⟨"warning", oversatMsg pd.1 pd.2 (jsOr0 (mGet slots pd.1)), none, none, "task"⟩
          else none)
  | [] => rfl
  | (phase, demand) :: rest => by
    rw [capacityCoresGo, capacityCoresGo_filterMap slots rest, List.filterMap_cons]
    by_cases h : (jsOr0 (mGet slots phase)).blt demand = true
    · rw [if_pos h, if_pos (JsN.blt_iff_val.mp h)]
      simp
    · have h2 : ¬ (jsOr0 (mGet slots phase)).val < demand.val :=
        fun hc => h (JsN.blt_iff_val.mpr hc)
      rw [if_neg (by simpa using h), if_neg h2]
      simp

/-- C4: the capacity check builds supply by adding each worker's
`MaxLoadPerPhase` once per occurrence of a phase in its (array-shaped)
`AvailableSlots`, builds demand by adding a task's `Duration` once per
phase of its `PreferredPhases` only when that is an explicit numeric list
(range-literal strings and other shapes contribute nothing), and appends
exactly one `"warning"`-severity issue (and no other severity) for exactly
those entries of the demand ledger whose demand value exceeds the supply
value recorded for that phase, a missing supply entry reading as zero. -/
theorem C4_capacity_check (ids : Nat → String) (ws : List Worker) (ts : List Task)
    (st : VState) :
    ((validateCapacityConstraints ids ws ts st).errors.map VIssue.core
      = st.errors.map VIssue.core
        ++ (phaseDemand ts).filterMap (fun pd =>
            if (jsOr0 (mGet (phaseSlots ws) pd.1)).val < pd.2.val then
              some ⟨"warning", oversatMsg pd.1 pd.2 (jsOr0 (mGet (phaseSlots ws) pd.1)),
                none, none, "task"⟩
            else none)) ∧
    (∀ p : JsN, (jsOr0 (mGet (phaseSlots ws) p)).val
      = (ws.map (fun w => ((slotsOf w).countP (fun q => q.beq p) : ℚ) * w.MaxLoadPerPhase.val)).sum) ∧
    (∀ p : JsN, (jsOr0 (mGet (phaseDemand ts) p)).val
      = (ts.map (fun t => ((prefsOf t).countP (fun q => q.beq p) : ℚ) * t.Duration.val)).sum) := by
  refine ⟨?_, ?_, ?_⟩
  · rw [validateCapacityConstraints_core]
    unfold capacityCores
    rw [capacityCoresGo_filterMap]
  · intro p
    have h := phaseSlotsAux p ws []
    rw [valAt_nil, zero_add] at h
    unfold phaseSlots
    unfold valAt at h
    exact h
  · intro p
    have h := phaseDemandAux p ts []
    rw [valAt_nil, zero_add] at h
    unfold phaseDemand
    unfold valAt at h
    exact h

/-! ### Duplicate-identifier accounting -/

/-- Recognizer of a duplicate-id issue core for a given entity tag, field
name and exact message. -/
def isDupOf (entity field msg : String) (c : VCore) : Bool :=
  c.entity == entity && c.field == some field && c.message == msg

/-- The row indices (counting from `i`) at which `v` occurs in a list of
identifier values. -/
def occFrom (i : Nat) (v : String) : List String → List Nat
  | [] => []
  | x :: xs => if x = v then i :: occFrom (i + 1) v xs else occFrom (i + 1) v xs

theorem occFrom_length (v : String) :
    ∀ (l : List String) (i : Nat), (occFrom i v l).length = l.count v
  | [], _ => rfl
  | x :: xs, i => by
    rw [occFrom]
    by_cases h : x = v
    · rw [if_pos h, List.length_cons, occFrom_length v xs]
      subst h
      simp [List.count_cons]
    · rw [if_neg h, occFrom_length v xs]
      have hb : (v == x) = false := by
        rw [beq_eq_false_iff_ne]
        exact fun hh => h hh.symm
      simp [List.count_cons, hb]
      exact h

theorem strAppend_cancel (p x v : String) : p ++ x = p ++ v ↔ x = v := by
  constructor
  · intro h
    have h2 := congrArg String.data h
    rw [String.data_append, String.data_append] at h2
    rcases x with ⟨dx⟩
    rcases v with ⟨dv⟩
    have h3 := List.append_cancel_left h2
    simp only at h3
    rw [h3]
  · intro h
    rw [h]

theorem ne_of_shorter (t p v : String) (h : t.data.length < p.data.length) :
    t ≠ p ++ v := by
  intro he
  have h2 := congrArg (fun s : String => s.data.length) he
  simp only [String.data_append, List.length_append] at h2
  omega

/-- Filtering a conditional singleton. -/
theorem filter_condSingleton (p : VCore → Bool) (P : Prop) [Decidable P] (x : VCore) :
    (if P then [x] else []).filter p = if P ∧ p x = true then [x] else [] := by
  by_cases hP : P <;> by_cases hx : p x = true <;> simp [hP, hx]

theorem filter_filterMap_none {α : Type} (f : α → Option VCore) (p : VCore → Bool)
    (h : ∀ a b, f a = some b → p b = false) :
    ∀ l : List α, (l.filterMap f).filter p = []
  | [] => rfl
  | a :: l => by
    cases hfa : f a with
    | none => simp [List.filterMap_cons, hfa, filter_filterMap_none f p h l]
    | some b =>
      simp [List.filterMap_cons, hfa, List.filter_cons, h a b hfa,
        filter_filterMap_none f p h l]

theorem clientRowCore_dup (v : String) (i : Nat) (seen : List String) (c : Client) :
    (clientRowCore i seen c).filter (isDupOf "client" "ClientID" ("Duplicate ClientID: " ++ v))
      = if c.ClientID = v ∧ v ∈ seen then
          [⟨"error", "Duplicate ClientID: " ++ v, some "ClientID", some i, "client"⟩]
        else [] := by
  have hne : (("Missing ClientID" : String) == "Duplicate ClientID: " ++ v) = false := by
    rw [beq_eq_false_iff_ne]
    exact ne_of_shorter _ _ _ (by decide)
  rcases c with ⟨cid, cname, pl, rt, gt, aj⟩
  by_cases hc : cid = v
  · subst hc
    cases aj <;>
      (simp only [clientRowCore, List.filter_append, filter_condSingleton]
       simp [isDupOf, hne])
  · have hdup : (("Duplicate ClientID: " ++ cid) == "Duplicate ClientID: " ++ v) = false := by
      rw [beq_eq_false_iff_ne]
      exact fun h => hc ((strAppend_cancel _ _ _).mp h)
    cases aj <;>
      (simp only [clientRowCore, List.filter_append, filter_condSingleton]
       simp [isDupOf, hne, hdup, hc])

theorem clientsCoresGo_dup (v : String) :
    ∀ (cs : List Client) (i : Nat) (seen : List String),
    (clientsCoresGo i seen cs).filter (isDupOf "client" "ClientID" ("Duplicate ClientID: " ++ v))
      = (if v ∈ seen then occFrom i v (cs.map Client.ClientID)
         else (occFrom i v (cs.map Client.ClientID)).tail).map
          (fun j => ⟨"error", "Duplicate ClientID: " ++ v, some "ClientID", some j, "client"⟩)
  | [], i, seen => by
    by_cases h : v ∈ seen <;> simp [clientsCoresGo, occFrom, h]
  | c :: rest, i, seen => by
    rw [clientsCoresGo, List.filter_append, clientRowCore_dup,
      clientsCoresGo_dup v rest (i + 1) (c.ClientID :: seen), List.map_cons]
    by_cases hc : c.ClientID = v
    · have hmem : v ∈ c.ClientID :: seen := by simp [hc]
      by_cases hs : v ∈ seen <;> simp [occFrom, hc, hs, hmem]
    · have hmem : (v ∈ c.ClientID :: seen) ↔ v ∈ seen := by
        simp [List.mem_cons]
        intro he
        exact absurd he.symm hc
      by_cases hs : v ∈ seen <;> simp [occFrom, hc, hs, hmem]

theorem workerRowCore_dup (v : String) (i : Nat) (seen : List String) (w : Worker) :
    (workerRowCore i seen w).filter (isDupOf "worker" "WorkerID" ("Duplicate WorkerID: " ++ v))
      = if w.WorkerID = v ∧ v ∈ seen then
          [⟨"error", "Duplicate WorkerID: " ++ v, some "WorkerID", some i, "worker"⟩]
        else [] := by
  have hne : (("Missing WorkerID" : String) == "Duplicate WorkerID: " ++ v) = false := by
    rw [beq_eq_false_iff_ne]
    exact ne_of_shorter _ _ _ (by decide)
  rcases w with ⟨wid, wname, sk, slots, load, gr, ql⟩
  by_cases hc : wid = v
  · subst hc
    rcases slots with l | nv
    · simp only [workerRowCore, List.filter_append, filter_condSingleton, ArrField.lenJS]
      simp [isDupOf, hne]
    · cases nv <;>
        (simp only [workerRowCore, List.filter_append, filter_condSingleton, ArrField.lenJS]
         simp [isDupOf, hne])
  · have hdup : (("Duplicate WorkerID: " ++ wid) == "Duplicate WorkerID: " ++ v) = false := by
      rw [beq_eq_false_iff_ne]
      exact fun h => hc ((strAppend_cancel _ _ _).mp h)
    rcases slots with l | nv
    · simp only [workerRowCore, List.filter_append, filter_condSingleton, ArrField.lenJS]
      simp [isDupOf, hne, hdup, hc]
    · cases nv <;>
        (simp only [workerRowCore, List.filter_append, filter_condSingleton, ArrField.lenJS]
         simp [isDupOf, hne, hdup, hc])

theorem workersCoresGo_dup (v : String) :
    ∀ (ws : List Worker) (i : Nat) (seen : List String),
    (workersCoresGo i seen ws).filter (isDupOf "worker" "WorkerID" ("Duplicate WorkerID: " ++ v))
      = (if v ∈ seen then occFrom i v (ws.map Worker.WorkerID)
         else (occFrom i v (ws.map Worker.WorkerID)).tail).map
          (fun j => ⟨"error", "Duplicate WorkerID: " ++ v, some "WorkerID", some j, "worker"⟩)
  | [], i, seen => by
    by_cases h : v ∈ seen <;> simp [workersCoresGo, occFrom, h]
  | w :: rest, i, seen => by
    rw [workersCoresGo, List.filter_append, workerRowCore_dup,
      workersCoresGo_dup v rest (i + 1) (w.WorkerID :: seen), List.map_cons]
    by_cases hc : w.WorkerID = v
    · have hmem : v ∈ w.WorkerID :: seen := by simp [hc]
      by_cases hs : v ∈ seen <;> simp [occFrom, hc, hs, hmem]
    · have hmem : (v ∈ w.WorkerID :: seen) ↔ v ∈ seen := by
        simp [List.mem_cons]
        intro he
        exact absurd he.symm hc
      by_cases hs : v ∈ seen <;> simp [occFrom, hc, hs, hmem]

theorem taskRowCore_dup (v : String) (i : Nat) (seen : List String) (t : Task) :
    (taskRowCore i seen t).filter (isDupOf "task" "TaskID" ("Duplicate TaskID: " ++ v))
      = if t.TaskID = v ∧ v ∈ seen then
          [⟨"error", "Duplicate TaskID: " ++ v, some "TaskID", some i, "task"⟩]
        else [] := by
  have hne : (("Missing TaskID" : String) == "Duplicate TaskID: " ++ v) = false := by
    rw [beq_eq_false_iff_ne]
    exact ne_of_shorter _ _ _ (by decide)
  rcases t with ⟨tid, tname, cat, dur, rs, pp, mc⟩
  by_cases hc : tid = v
  · subst hc
    cases pp <;>
      (simp only [taskRowCore, List.filter_append, filter_condSingleton]
       simp [isDupOf, hne])
  · have hdup : (("Duplicate TaskID: " ++ tid) == "Duplicate TaskID: " ++ v) = false := by
      rw [beq_eq_false_iff_ne]
      exact fun h => hc ((strAppend_cancel _ _ _).mp h)
    cases pp <;>
      (simp only [taskRowCore, List.filter_append, filter_condSingleton]
       simp [isDupOf, hne, hdup, hc])

theorem tasksCoresGo_dup (v : String) :
    ∀ (ts : List Task) (i : Nat) (seen : List String),
    (tasksCoresGo i seen ts).filter (isDupOf "task" "TaskID" ("Duplicate TaskID: " ++ v))
      = (if v ∈ seen then occFrom i v (ts.map Task.TaskID)
         else (occFrom i v (ts.map Task.TaskID)).tail).map
          (fun j => ⟨"error", "Duplicate TaskID: " ++ v, some "TaskID", some j, "task"⟩)
  | [], i, seen => by
    by_cases h : v ∈ seen <;> simp [tasksCoresGo, occFrom, h]
  | t :: rest, i, seen => by
    rw [tasksCoresGo, List.filter_append, taskRowCore_dup,
      tasksCoresGo_dup v rest (i + 1) (t.TaskID :: seen), List.map_cons]
    by_cases hc : t.TaskID = v
    · have hmem : v ∈ t.TaskID :: seen := by simp [hc]
      by_cases hs : v ∈ seen <;> simp [occFrom, hc, hs, hmem]
    · have hmem : (v ∈ t.TaskID :: seen) ↔ v ∈ seen := by
        simp [List.mem_cons]
        intro he
        exact absurd he.symm hc
      by_cases hs : v ∈ seen <;> simp [occFrom, hc, hs, hmem]

theorem clientRowCore_filter_entity (p : VCore → Bool)
    (hp : ∀ c : VCore, c.entity = "client" → p c = false)
    (i : Nat) (seen : List String) (c : Client) :
    (clientRowCore i seen c).filter p = [] := by
  rcases c with ⟨cid, cname, pl, rt, gt, aj⟩
  cases aj <;>
    (simp only [clientRowCore, List.filter_append, filter_condSingleton]
     simp [hp])

theorem clientsCoresGo_filter_entity (p : VCore → Bool)
    (hp : ∀ c : VCore, c.entity = "client" → p c = false) :
    ∀ (cs : List Client) (i : Nat) (seen : List String),
    (clientsCoresGo i seen cs).filter p = []
  | [], _, _ => rfl
  | c :: rest, i, seen => by
    rw [clientsCoresGo, List.filter_append, clientRowCore_filter_entity p hp,
      clientsCoresGo_filter_entity p hp rest]
    rfl

theorem workerRowCore_filter_entity (p : VCore → Bool)
    (hp : ∀ c : VCore, c.entity = "worker" → p c = false)
    (i : Nat) (seen : List String) (w : Worker) :
    (workerRowCore i seen w).filter p = [] := by
  rcases w with ⟨wid, wname, sk, slots, load, gr, ql⟩
  rcases slots with l | nv
  · simp only [workerRowCore, List.filter_append, filter_condSingleton, ArrField.lenJS]
    simp [hp]
  · cases nv <;>
      (simp only [workerRowCore, List.filter_append, filter_condSingleton, ArrField.lenJS]
       simp [hp])

theorem workersCoresGo_filter_entity (p : VCore → Bool)
    (hp : ∀ c : VCore, c.entity = "worker" → p c = false) :
    ∀ (ws : List Worker) (i : Nat) (seen : List String),
    (workersCoresGo i seen ws).filter p = []
  | [], _, _ => rfl
  | w :: rest, i, seen => by
    rw [workersCoresGo, List.filter_append, workerRowCore_filter_entity p hp,
      workersCoresGo_filter_entity p hp rest]
    rfl

theorem taskRowCore_filter_entity (p : VCore → Bool)
    (hp : ∀ c : VCore, c.entity = "task" → p c = false)
    (i : Nat) (seen : List String) (t : Task) :
    (taskRowCore i seen t).filter p = [] := by
  rcases t with ⟨tid, tname, cat, dur, rs, pp, mc⟩
  cases pp <;>
    (simp only [taskRowCore, List.filter_append, filter_condSingleton]
     simp [hp])

theorem tasksCoresGo_filter_entity (p : VCore → Bool)
    (hp : ∀ c : VCore, c.entity = "task" → p c = false) :
    ∀ (ts : List Task) (i : Nat) (seen : List String),
    (tasksCoresGo i seen ts).filter p = []
  | [], _, _ => rfl
  | t :: rest, i, seen => by
    rw [tasksCoresGo, List.filter_append, taskRowCore_filter_entity p hp,
      tasksCoresGo_filter_entity p hp rest]
    rfl

theorem crossClientIssue_shape (tids : List String) (a : Nat × Client) (b : VCore)
    (h : crossClientIssue tids a = some b) :
    b.entity = "client" ∧ b.field = some "RequestedTaskIDs" := by
  rcases hrt : a.2.RequestedTaskIDs with l | nv
  · simp only [crossClientIssue, hrt] at h
    split_ifs at h
    cases h
    exact ⟨rfl, rfl⟩
  · simp [crossClientIssue, hrt] at h

theorem crossTaskIssue_shape (sk : List String) (a : Nat × Task) (b : VCore)
    (h : crossTaskIssue sk a = some b) :
    b.entity = "task" ∧ b.field = some "RequiredSkills" := by
  rcases hrs : a.2.RequiredSkills with l | nv
  · simp only [crossTaskIssue, hrs] at h
    split_ifs at h
    cases h
    exact ⟨rfl, rfl⟩
  · simp [crossTaskIssue, hrs] at h

theorem capacityCores_filter (p : VCore → Bool)
    (hp : ∀ c : VCore, c.entity = "task" → c.field = none → p c = false)
    (ws : List Worker) (ts : List Task) :
    (capacityCores ws ts).filter p = [] := by
  unfold capacityCores
  rw [capacityCoresGo_filterMap]
  apply filter_filterMap_none
  intro a b h
  split_ifs at h
  cases h
  exact hp _ rfl rfl

theorem crossCores_filter (p : VCore → Bool)
    (hpc : ∀ c : VCore, c.entity = "client" → c.field = some "RequestedTaskIDs" → p c = false)
    (hpt : ∀ c : VCore, c.entity = "task" → c.field = some "RequiredSkills" → p c = false)
    (cs : List Client) (ws : List Worker) (ts : List Task) :
    (crossCores cs ws ts).filter p = [] := by
  unfold crossCores
  rw [List.filter_append, crossClientsCoresGo_filterMap, crossTasksCoresGo_filterMap]
  rw [filter_filterMap_none _ p
    (fun a b h => by
      obtain ⟨he, hf⟩ := crossClientIssue_shape _ a b h
      exact hpc b he hf)]
  rw [filter_filterMap_none _ p
    (fun a b h => by
      obtain ⟨he, hf⟩ := crossTaskIssue_shape _ a b h
      exact hpt b he hf)]
  rfl

/-- C5: in every successful validation run, for any identifier value `v`,
the duplicate-id issues for `v` in each entity collection are exactly one
per occurrence of `v` after the first, attached to those occurrences' row
indices (so a value occurring `k` times yields exactly `k-1` duplicate-id
errors, and the first occurrence is never flagged); the final conjunct
identifies the occurrence-index count with `List.count`. -/
theorem C5_duplicate_id_errors (ids : Nat → String) (cs : List Client) (ws : List Worker)
    (ts : List Task) (out : List VIssue) (v : String)
    (hok : validateAll ids cs ws ts = .ok out) :
    ((out.map VIssue.core).filter (isDupOf "client" "ClientID" ("Duplicate ClientID: " ++ v))
      = ((occFrom 0 v (cs.map Client.ClientID)).tail).map
          (fun j => ⟨"error", "Duplicate ClientID: " ++ v, some "ClientID", some j, "client"⟩)) ∧
    ((out.map VIssue.core).filter (isDupOf "worker" "WorkerID" ("Duplicate WorkerID: " ++ v))
      = ((occFrom 0 v (ws.map Worker.WorkerID)).tail).map
          (fun j => ⟨"error", "Duplicate WorkerID: " ++ v, some "WorkerID", some j, "worker"⟩)) ∧
    ((out.map VIssue.core).filter (isDupOf "task" "TaskID" ("Duplicate TaskID: " ++ v))
      = ((occFrom 0 v (ts.map Task.TaskID)).tail).map
          (fun j => ⟨"error", "Duplicate TaskID: " ++ v, some "TaskID", some j, "task"⟩)) ∧
    (∀ l : List String, (occFrom 0 v l).length = l.count v) := by
  have h1 := validateAll_core ids cs ws ts
  rw [hok] at h1
  unfold validateAllCoresE at h1
  by_cases hth : ws.any workerRowThrows = true
  · rw [if_pos hth] at h1
    exact absurd h1 (by simp [eraseIds, Except.map])
  · rw [if_neg hth] at h1
    have hcores : out.map VIssue.core
        = clientsCores cs ++ workersCores ws ++ tasksCores ts
          ++ crossCores cs ws ts ++ capacityCores ws ts := by
      simpa [eraseIds, Except.map] using h1
    refine ⟨?_, ?_, ?_, fun l => occFrom_length v l 0⟩
    · rw [hcores]
      simp only [List.filter_append]
      unfold clientsCores workersCores tasksCores
      rw [clientsCoresGo_dup,
        workersCoresGo_filter_entity _ (fun c hc => by simp [isDupOf, hc]),
        tasksCoresGo_filter_entity _ (fun c hc => by simp [isDupOf, hc]),
        crossCores_filter _ (fun c hc hf => by simp [isDupOf, hf]) (fun c hc hf => by simp [isDupOf, hc]),
        capacityCores_filter _ (fun c hc hf => by simp [isDupOf, hc])]
      simp
    · rw [hcores]
      simp only [List.filter_append]
      unfold clientsCores workersCores tasksCores
      rw [workersCoresGo_dup,
        clientsCoresGo_filter_entity _ (fun c hc => by simp [isDupOf, hc]),
        tasksCoresGo_filter_entity _ (fun c hc => by simp [isDupOf, hc]),
        crossCores_filter _ (fun c hc hf => by simp [isDupOf, hc]) (fun c hc hf => by simp [isDupOf, hc]),
        capacityCores_filter _ (fun c hc hf => by simp [isDupOf, hc])]
      simp
    · rw [hcores]
      simp only [List.filter_append]
      unfold clientsCores workersCores tasksCores
      rw [tasksCoresGo_dup,
        clientsCoresGo_filter_entity _ (fun c hc => by simp [isDupOf, hc]),
        workersCoresGo_filter_entity _ (fun c hc => by simp [isDupOf, hc]),
        crossCores_filter _ (fun c hc hf => by simp [isDupOf, hc]) (fun c hc hf => by simp [isDupOf, hf]),
        capacityCores_filter _ (fun c hc hf => by simp [isDupOf, hf])]
      simp

/-- C5 witness: two clients sharing `ClientID` `"C1"` yield exactly one
duplicate-id error, at row index 1. -/
theorem C5_dup_witness :
    (([⟨"", "error", "Duplicate ClientID: C1", some "ClientID", some 1, "client"⟩] : List VIssue).map
        VIssue.core).filter (isDupOf "client" "ClientID" ("Duplicate ClientID: " ++ "C1"))
      = [⟨"error", "Duplicate ClientID: " ++ "C1", some "ClientID", some 1, "client"⟩] := by
  have h := (C5_duplicate_id_errors (fun _ => "")
    [⟨"C1", "A", ⟨3, 0⟩, .arr [], "", .objV⟩, ⟨"C1", "B", ⟨3, 0⟩, .arr [], "", .objV⟩]
    [] []
    [⟨"", "error", "Duplicate ClientID: C1", some "ClientID", some 1, "client"⟩]
    "C1" rfl).1
  rw [h]
  rfl

end DataAlchemist
